import Mathlib

/-!
Verification of the GE:S map script utility (a Rust command-line tool that generates and
validates three structured text formats for GoldenEye: Source map releases: map scripts,
music scripts and reslists).

The development shallowly embeds the relevant Rust functions from
`src/map_script_builder.rs`, `src/music_script_builder.rs`, `src/reslist_builder.rs` and
`src/shared.rs` as executable Lean functions.  Strings are modelled as Lean `String`s
(one `Char` per Rust `char`; the documents at issue are ASCII, so Rust's byte-based
`len`/slicing and Unicode-aware `to_lowercase`/`is_whitespace` coincide with the
character-based models below on every input considered).  File-system effects are made
explicit: directory walks become lists of entries passed in as parameters, and file
writes become returned strings.
-/

set_option maxRecDepth 100000

namespace GesMSU

/-! ## Models of the Rust string primitives used by the tool -/

/-- Model of Rust `str::starts_with(pat)`. -/
def rsStartsWith (s pat : String) : Bool := pat.data.isPrefixOf s.data

/-- Model of Rust `str::ends_with(suf)` (used only to state suffix facts). -/
def rsEndsWith (s suf : String) : Bool :=
  decide (suf.data.length ≤ s.data.length) &&
    decide (s.data.drop (s.data.length - suf.data.length) = suf.data)

/-- Boolean test that `pat` occurs as a contiguous substring of `s`; model of Rust
`str::contains(pat)` and the yardstick for "the error message names X". -/
def containsSeq : List Char → List Char → Bool
  | pat, [] => pat.isEmpty
  | pat, c :: rest => pat.isPrefixOf (c :: rest) || containsSeq pat rest

/-- String-level wrapper for `containsSeq`: `pat` occurs inside `s`. -/
def strContains (s pat : String) : Bool := containsSeq pat.data s.data

/-- Model of Rust `char::is_whitespace` restricted to the ASCII whitespace actually
occurring in the documents handled by the tool. -/
def rsIsWhitespace (c : Char) : Bool := c == ' ' || c == '\t' || c == '\n' || c == '\r'

/-- Accumulator worker for `rsSplitWhitespace`; `acc` holds the reversed current token. -/
def splitWsGo : List Char → List Char → List (List Char)
  | [], acc => if acc.isEmpty then [] else [acc.reverse]
  | c :: rest, acc =>
    if rsIsWhitespace c then
      if acc.isEmpty then splitWsGo rest [] else acc.reverse :: splitWsGo rest []
    else splitWsGo rest (c :: acc)

/-- Model of Rust `str::split_whitespace` (collected into a list). -/
def rsSplitWhitespace (s : String) : List String :=
  (splitWsGo s.data []).map List.asString

/-- Splits a character list at every newline character, keeping the (possibly empty)
segments; always returns at least one segment. -/
def splitOnNl : List Char → List (List Char)
  | [] => [[]]
  | c :: rest =>
    if c = '\n' then [] :: splitOnNl rest
    else
      match splitOnNl rest with
      | [] => [[c]]
      | seg :: segs => (c :: seg) :: segs

/-- Removes one trailing carriage return, if present. -/
def stripCr : List Char → List Char
  | [] => []
  | c :: rest => if rest.isEmpty ∧ c = '\r' then [] else c :: stripCr rest

/-- Model of iterating Rust `BufReader::lines()`: split on newlines, drop the empty
segment produced by a trailing newline, and strip one trailing carriage return from
each line. -/
def rsLines (s : String) : List String :=
  let segs := splitOnNl s.data
  let segs := if segs.getLast? = some [] then segs.dropLast else segs
  segs.map (fun l => (stripCr l).asString)

/-- Lowercases one character; model of the effect of Rust `to_lowercase` on the ASCII
range (characters outside A-Z are unchanged). -/
def lowerChar (c : Char) : Char :=
  if 'A' ≤ c ∧ c ≤ 'Z' then Char.ofNat (c.toNat + 32) else c

/-- Model of Rust `str::to_lowercase` on ASCII strings. -/
def rsToLower (s : String) : String := ⟨s.data.map lowerChar⟩

/-- Model of Rust `str::replace("\\", "/")` (a single-character replacement, hence a map). -/
def slashFwd (s : String) : String := ⟨s.data.map (fun c => if c = '\\' then '/' else c)⟩

/-- Model of Rust `str::replace("\"", "")` (a single-character deletion, hence a filter). -/
def stripQuotes (s : String) : String := ⟨s.data.filter (fun c => c != '"')⟩

/-- The last `n` characters of `s` (model of the Rust slice `s[s.len()-n..s.len()]` on
ASCII strings). -/
def lastN (s : String) (n : Nat) : String := ⟨s.data.drop (s.data.length - n)⟩

/-! ## Decimal integers: models of Rust `i32::to_string` and `str::parse::<i32>` -/

/-- The ASCII digit character for `n < 10`. -/
def digitChar (n : Nat) : Char := Char.ofNat (48 + n)

/-- Fuelled most-significant-first decimal digit expansion. -/
def natToDigitsAux : Nat → Nat → List Char
  | 0, _ => []
  | fuel + 1, n => if n < 10 then [digitChar n] else natToDigitsAux fuel (n / 10) ++ [digitChar (n % 10)]

/-- Decimal digit list of a natural number (most significant digit first). -/
def natToDigits (n : Nat) : List Char := natToDigitsAux (n + 1) n

/-- Model of Rust `i32::to_string` (via `Display`): optional minus sign followed by the
decimal digits of the absolute value. -/
def intToString (n : Int) : String :=
  if n < 0 then ⟨'-' :: natToDigits (-n).toNat⟩ else ⟨natToDigits n.toNat⟩

/-- Numeric value of an ASCII digit character, `none` for any other character. -/
def digitVal? (c : Char) : Option Nat :=
  if '0' ≤ c ∧ c ≤ '9' then some (c.toNat - 48) else none

/-- Accumulating decimal reader: fails on the first non-digit character. -/
def parseDigitsGo (acc : Nat) : List Char → Option Nat
  | [] => some acc
  | c :: rest =>
    match digitVal? c with
    | some d => parseDigitsGo (10 * acc + d) rest
    | none => none

/-- Reads a non-empty all-digit character list as a natural number. -/
def parseDigits : List Char → Option Nat
  | [] => none
  | c :: rest => parseDigitsGo 0 (c :: rest)

/-- Lower bound of the Rust `i32` range. -/
def i32Min : Int := -2147483648

/-- Upper bound of the Rust `i32` range. -/
def i32Max : Int := 2147483647

/-- Membership in the Rust `i32` range. -/
def isI32 (n : Int) : Prop := i32Min ≤ n ∧ n ≤ i32Max

/-- Model of Rust `str::parse::<i32>`: an optional sign, then one or more ASCII digits,
with failure on any other shape and on overflow of the `i32` range. -/
def parseI32 (s : String) : Option Int :=
  match s.data with
  | [] => none
  | '+' :: rest =>
    match parseDigits rest with
    | some m => if (m : Int) ≤ i32Max then some (m : Int) else none
    | none => none
  | '-' :: rest =>
    match parseDigits rest with
    | some m => if i32Min ≤ -(m : Int) then some (-(m : Int)) else none
    | none => none
  | cs =>
    match parseDigits cs with
    | some m => if (m : Int) ≤ i32Max then some (m : Int) else none
    | none => none

/-! ## Map script engine (`src/map_script_builder.rs`)

The validator `check_map_script_file` reads the file line by line; we embed it as a
fold over the list of lines produced by `rsLines`.  The five required flat fields and
the three required bracketed sections are tracked exactly as the two `retain`-pruned
vectors of the source, and `checking_term` is the section currently being read
(empty when reading top level). -/

/-- The five required flat value terms of a map script. -/
def mapNeededValueTerms : List String :=
  ["BaseWeight", "MaxPlayers", "MinPlayers", "ResIntensity", "TeamThreshold"]

/-- The three required bracketed section terms of a map script. -/
def mapNeededBracketTerms : List String :=
  ["WeaponsetWeights", "GamemodeWeights", "TeamGamemodeWeights"]

/-- Mutable state of `check_map_script_file`: the still-pending value terms, the
still-pending bracket terms, and the section currently being parsed. -/
structure MapCheckState where
  neededValueTerms : List String
  neededBracketTerms : List String
  checkingTerm : String

/-- Embedding of `check_line_value_validity`: the value token must exist and parse as
an `i32`. -/
def check_line_value_validity (lineIdentifier : String) (lineValue : Option String) :
    Except String Unit :=
  match lineValue with
  | none =>
    .error ("[Map Script Validate Error] Expected value for parameter " ++ lineIdentifier)
  | some v =>
    match parseI32 v with
    | some _ => .ok ()
    | none =>
      .error ("[Map Script Validate Error] Parameter for " ++ lineIdentifier ++
        " not a valid whole number value!")

/-- Embedding of one iteration of the line loop of `check_map_script_file`. -/
def processMapScriptLine (st : MapCheckState) (line : String) : Except String MapCheckState :=
  if rsStartsWith line "//" then .ok st
  else
    let tokens := rsSplitWhitespace line
    if st.checkingTerm = "" then
      match tokens with
      | [] => .ok st
      | lineIdentifier :: rest =>
        if st.neededValueTerms.contains lineIdentifier then do
          check_line_value_validity lineIdentifier rest.head?
          .ok { st with neededValueTerms := st.neededValueTerms.filter (· != lineIdentifier) }
        else if st.neededBracketTerms.contains lineIdentifier then
          .ok { st with checkingTerm := lineIdentifier }
        else .ok st
    else
      if rsStartsWith line "\x7b" then .ok st
      else if rsStartsWith line "\x7d" then
        .ok { st with
          neededBracketTerms := st.neededBracketTerms.filter (· != st.checkingTerm),
          checkingTerm := "" }
      else
        match tokens with
        | [] =>
          .error ("[Map Script Validate Error] Subvalue section for " ++ st.checkingTerm ++
            " contains an blank line when it must not contain any!")
        | lineIdentifier :: rest => do
          check_line_value_validity lineIdentifier rest.head?
          if strContains line "\x7d" then
            .ok { st with
              neededBracketTerms := st.neededBracketTerms.filter (· != st.checkingTerm),
              checkingTerm := "" }
          else .ok st

/-- The line loop of `check_map_script_file`, started from the full pending sets. -/
def runMapScriptLines (docLines : List String) : Except String MapCheckState :=
  docLines.foldlM processMapScriptLine ⟨mapNeededValueTerms, mapNeededBracketTerms, ""⟩

/-- Embedding of the end-of-file checks of `check_map_script_file`: no open section,
no pending value terms, no pending bracket terms — tested in that order, each with its
own error message. -/
def mapScriptEndCheck (st : MapCheckState) : Except String Unit :=
  if st.checkingTerm ≠ "" then
    .error ("[Map Script Validate Error] Script ends in the middle of the " ++
      st.checkingTerm ++ "Section!")
  else if st.neededValueTerms ≠ [] then
    .error (st.neededValueTerms.foldl (fun acc term => acc ++ term ++ " ")
      "[Map Script Validate Error] Absent value terms: ")
  else if st.neededBracketTerms ≠ [] then
    .error (st.neededBracketTerms.foldl (fun acc term => acc ++ term ++ " ")
      "[Map Script Validate Error] Absent bracket terms: ")
  else .ok ()

/-- Embedding of `check_map_script_file`, as a function of the document's lines. -/
def check_map_script_file (docLines : List String) : Except String Unit := do
  let st ← runMapScriptLines docLines
  mapScriptEndCheck st

/-- Shape of a failing value token: the token is absent, or it is present but does not
parse as an `i32`. -/
def valueTokenBad (v : Option String) : Prop :=
  v = none ∨ ∃ s, v = some s ∧ parseI32 s = none

/-- Numeric program parameters of `argument_handler::Arguments` (the path and flag
fields are made explicit elsewhere: directory walks are passed as entry lists and the
fullcheck flag accompanies the reslist environment).  Rust gives each field type
`i32`; range hypotheses state membership in that type's range. -/
structure Arguments where
  baseweight : Int
  minplayers : Int
  maxplayers : Int
  resintensity : Int
  teamthresh : Int

/-- Lines of the map script emitted by `create_map_script_file`, in push order (each
source `push_str` chunk ends in `\r\n`; the five field lines are assembled from their
prefix and the parameter's decimal rendering). -/
def create_map_script_lines (args : Arguments) : List String :=
  ["// Map Script File Generated by GE:S Map Release Assistant for 5.0 - Report Any Issues to Entropy-Soldier",
   "",
   "// The game will try not to pick this map when the playercount is outside the range specified here.",
   "// The BaseWeight of the map controls how likely the map is to be chosen in random selection.",
   "// The map will not be chosen if the server playercount is below MinPlayers or above MaxPlayers",
   "// The baseweight scales with how far the playercount is from the average of MinPlayers and MaxPlayers.",
   "// because of this, maps with large ranges are not very likely to be picked at the edges of them.",
   "// ResIntensity is a measure of how much data in unique assets a map has.",
   "// It will avoid switching between maps with a combined intensity score of 10 or greater to avoid client crashes.",
   "",
   "BaseWeight\t" ++ intToString args.baseweight,
   "MaxPlayers\t" ++ intToString args.maxplayers,
   "MinPlayers\t" ++ intToString args.minplayers,
   "ResIntensity\t" ++ intToString args.resintensity,
   "TeamThreshold\t" ++ intToString args.teamthresh,
   "",
   "// Overrides the default weaponset weights if any sets are specified here.  Can be used as a blacklist.",
   "// Will only override weaponsets that are already in rotation, to prevent overriding gamemode specific lists.",
   "WeaponsetWeights",
   "\x7b",
   "\tslappers\t\t0",
   "\x7d",
   "",
   "// Weights for each gamemode if the map is switched to below the team threshold.",
   "// Overrides whatever weight is specified in default.txt, if there is one.",
   "// If a gamemode is not listed here or in default.txt it won\x27t be used.",
   "GamemodeWeights",
   "\x7b",
   "\tYOLT\t\t0",
   "\x7d",
   "",
   "// Gamemode weights used when the map is switched to while playercount is above the team threshold.",
   "TeamGamemodeWeights",
   "\x7b",
   "\tCaptureTheFlag\t\t0",
   "\x7d",
   ""]

/-- Embedding of `create_map_script_file`: the full file contents written out
(CRLF-terminated lines). -/
def create_map_script_contents (args : Arguments) : String :=
  String.join ((create_map_script_lines args).map (fun l => l ++ "\r\n"))

/-! ## Shared directory utilities (`src/shared.rs`)

A directory walk is made explicit as a list of entries in walk order; each entry
carries the full path string the walk yields and whether it is a regular file. -/

/-- One entry yielded by a recursive directory walk (`walkdir::WalkDir`). -/
structure WalkEntry where
  path : String
  isFile : Bool

/-- Embedding of `shared::get_file_extension` composed with `Path::to_str`: the
portion of the final path component after its final dot, or `""` when the component
has no dot, only a leading dot, or nothing after the dot. -/
def get_file_extension (path : String) : String :=
  let fileName := (path.data.reverse.takeWhile (fun c => c != '/' && c != '\\')).reverse
  let revTake := fileName.reverse.takeWhile (fun c => c != '.')
  if revTake.length < fileName.length ∧ revTake.length + 1 ≠ fileName.length then
    revTake.reverse.asString
  else ""

/-- Removes one leading path separator, if present (the two trimming lines of
`get_files_in_directory`). -/
def stripLeadSep (s : String) : String :=
  if rsStartsWith s "\\" || rsStartsWith s "/" then (⟨s.data.drop 1⟩ : String) else s

/-- Normalization applied by `get_files_in_directory` to a kept entry: cut off the
scanned directory's path and at most one separator, make the slashes forward and the
letters lowercase. -/
def snapshotPathOf (dirPath : String) (entry : WalkEntry) : String :=
  rsToLower (slashFwd (stripLeadSep ⟨entry.path.data.drop dirPath.data.length⟩))

/-- Embedding of `shared::get_files_in_directory`: filter the walk entries of
`dirPath` by the required and excluded extensions, then emit each kept file's path
with the `dirPath` prefix and at most one leading separator removed, backslashes
turned into forward slashes, and lowercased. -/
def get_files_in_directory (dirPath : String) (entries : List WalkEntry)
    (targetExtension : String) (excludedExtensions : List String) : List String :=
  entries.filterMap (fun entry =>
    if !entry.isFile then none
    else
      let fileExtension := get_file_extension entry.path
      if targetExtension ≠ "" ∧ rsToLower fileExtension ≠ targetExtension then none
      else if excludedExtensions ≠ [] ∧
          excludedExtensions.contains (rsToLower fileExtension) then none
      else some (snapshotPathOf dirPath entry))

/-- Condition under which `get_files_in_directory` keeps a walk entry: the entry is a
regular file, its lowercased extension equals the required extension verbatim when one
is given, and its lowercased extension is not in the excluded list verbatim. -/
def keepsEntry (targetExtension : String) (excludedExtensions : List String)
    (entry : WalkEntry) : Bool :=
  entry.isFile &&
    (targetExtension == "" ||
      rsToLower (get_file_extension entry.path) == targetExtension) &&
    !(!excludedExtensions.isEmpty &&
      excludedExtensions.contains (rsToLower (get_file_extension entry.path)))

/-- Worker for `check_all_files_in_dir_with_func`, also returning the list of files
the check function actually ran on (in walk order). -/
def checkAllFilesGo (extension : String) (checkFunc : String → Except String Unit) :
    List WalkEntry → List String → Except String Unit × List String
  | [], checked => (.ok (), checked)
  | entry :: rest, checked =>
    if !entry.isFile then checkAllFilesGo extension checkFunc rest checked
    else if rsToLower (get_file_extension entry.path) ≠ extension then
      checkAllFilesGo extension checkFunc rest checked
    else
      match checkFunc entry.path with
      | .ok _ => checkAllFilesGo extension checkFunc rest (checked ++ [entry.path])
      | .error e =>
        (.error ("While proccessing " ++ entry.path ++
          " the following error was encountered:\n" ++ e), checked ++ [entry.path])

/-- Embedding of `shared::check_all_files_in_dir_with_func`: run `checkFunc` on every
regular file of the walk whose lowercased extension equals `extension`, stopping at
the first failure with a wrapped error.  The second component instruments which files
were actually checked. -/
def check_all_files_in_dir_with_func (extension : String)
    (checkFunc : String → Except String Unit) (entries : List WalkEntry) :
    Except String Unit × List String :=
  checkAllFilesGo extension checkFunc entries []

/-- Whether a walk entry is a regular file of the target (lowercased) extension, i.e.
whether `check_all_files_in_dir_with_func` submits it to the check function. -/
def sweepMatches (extension : String) (entry : WalkEntry) : Bool :=
  entry.isFile && (rsToLower (get_file_extension entry.path) == extension)

/-! ## Recognizers for the two verification regexes

`music_script_builder.rs` and `reslist_builder.rs` verify whole-document structure
with anchored regexes (`FILE_RE`).  We embed each regex as a nondeterministic
recognizer: a parser maps an input suffix to the list of suffixes remaining after
every possible match of the construct, and the document matches when some
alternative consumes the whole input.  Alternation, greedy/lazy repetition and
backtracking of the regex engine are subsumed by keeping all alternatives. -/

/-- A recognizer: all possible remainders after consuming one construct. -/
def P : Type := List Char → List (List Char)

/-- Sequencing of recognizers. -/
def pseq (p q : P) : P := fun cs => (p cs).bind q

/-- Alternation of recognizers. -/
def palt (p q : P) : P := fun cs => p cs ++ q cs

/-- Literal character sequence. -/
def plit (lit : List Char) : P := fun cs =>
  if lit.isPrefixOf cs then [cs.drop lit.length] else []

/-- All suffixes obtained by dropping zero or more leading whitespace characters
(the regex `\s*`). -/
def wsSplits : List Char → List (List Char)
  | [] => [[]]
  | c :: rest =>
    if rsIsWhitespace c then (c :: rest) :: wsSplits rest else [c :: rest]

/-- The regex `\s*`. -/
def pws0 : P := wsSplits

/-- The regex `\s+`. -/
def pws1 : P := fun cs =>
  match cs with
  | c :: rest => if rsIsWhitespace c then wsSplits rest else []
  | [] => []

/-- Character class of the bare-value token `[\S&&[^"{}]]`. -/
def bareChar (c : Char) : Bool :=
  !rsIsWhitespace c && c != '"' && c != '\x7b' && c != '\x7d'

/-- Character class of the quoted-value body `[^"{}]`. -/
def quotedBodyChar (c : Char) : Bool := c != '"' && c != '\x7b' && c != '\x7d'

/-- Bare value: every non-empty prefix of the maximal run of bare characters
(the regex `[\S&&[^"{}]]+`). -/
def pbare : P := fun cs =>
  (List.range (cs.takeWhile bareChar).length).map (fun k => cs.drop (k + 1))

/-- Quoted value (the regex `"[^"{}]*"`): deterministic, since the body class
excludes the closing quote. -/
def pquoted : P := fun cs =>
  match cs with
  | '"' :: rest =>
    (match rest.drop (rest.takeWhile quotedBodyChar).length with
     | '"' :: rest2 => [rest2]
     | _ => [])
  | _ => []

/-- A value: quoted or bare (the regex `("[^"{}]*")|([\S&&[^"{}]]+)`). -/
def pvalue : P := palt pquoted pbare

/-- A keyword, quoted or bare (the regex `("w")|(w)`). -/
def pkw (w : String) : P := palt (plit ('"' :: w.data ++ ['"'])) (plit w.data)

/-- Fuelled Kleene star: zero consumptions, or one strictly-consuming step followed
by the star again.  Dropping non-consuming steps preserves the matched language. -/
def pstarF : Nat → P → P
  | 0, _, _ => []
  | fuel + 1, p, cs =>
    cs :: ((p cs).filter (fun r => r.length < cs.length)).bind (pstarF fuel p)

/-- Kleene star with sufficient fuel. -/
def pstar (p : P) : P := fun cs => pstarF (cs.length + 1) p cs

/-- One or more repetitions. -/
def pplus (p : P) : P := pseq p (pstar p)

/-- One `file <value>` entry of `FILE_RE` in `check_music_script_file`:
`\s*(("file")|(file))\s+(value)\s*`. -/
def musicEntryP : P := pseq pws0 (pseq (pkw "file") (pseq pws1 (pseq pvalue pws0)))

/-- One item of the music root block: a file entry, or a named sub-block
`(value)\s*\{\s*(entry)+\}\s*` with no further nesting. -/
def musicItemP : P :=
  palt musicEntryP
    (pseq pvalue (pseq pws0 (pseq (plit ['\x7b']) (pseq pws0
      (pseq (pplus musicEntryP) (pseq (plit ['\x7d']) pws0))))))

/-- The anchored music regex `FILE_RE`:
`^\s*(("music")|(music))\s*(\{\s*(item)*\})\s*$`. -/
def musicDocP : P :=
  pseq pws0 (pseq (pkw "music") (pseq pws0 (pseq (plit ['\x7b']) (pseq pws0
    (pseq (pstar musicItemP) (pseq (plit ['\x7d']) pws0))))))

/-- Embedding of `FILE_RE.is_match` of the music validator. -/
def musicStructMatch (s : String) : Bool := (musicDocP s.data).any List.isEmpty

/-- The case-insensitive `resources` keyword of the reslist regex:
`("[Rr]esources")|([Rr]esources)`. -/
def resKwP : P :=
  palt (plit ('"' :: "Resources".data ++ ['"']))
    (palt (plit ('"' :: "resources".data ++ ['"']))
      (palt (plit "Resources".data) (plit "resources".data)))

/-- One `<value> file` entry of the reslist regex: `\s*(value)\s+(("file")|(file))\s*`. -/
def reslistEntryP : P := pseq pws0 (pseq pvalue (pseq pws1 (pseq (pkw "file") pws0)))

/-- The anchored reslist regex `FILE_RE`:
`^\s*kw\s*(\{(entry)+\})\s*$`. -/
def reslistDocP : P :=
  pseq pws0 (pseq resKwP (pseq pws0 (pseq (plit ['\x7b'])
    (pseq (pplus reslistEntryP) (pseq (plit ['\x7d']) pws0)))))

/-- Embedding of `FILE_RE.is_match` of the reslist validator. -/
def reslistStructMatch (s : String) : Bool := (reslistDocP s.data).any List.isEmpty

/-! ## Capture extraction (`captures_iter`)

Both validators then walk every match of an entry regex with `captures_iter` and
read the value capture group.  Leftmost-first matching with the greedy semantics of
these entry regexes is deterministic: at a given start position the keyword, the
single whitespace run and the value are forced, so we model `captures_iter` as a
left-to-right scan that at each position either matches the full entry (emitting the
value capture and resuming after the match's trailing whitespace) or advances one
character. -/

/-- Match the (quoted or bare) keyword `w` at the head of the input. -/
def matchKw (w : String) (cs : List Char) : Option (List Char) :=
  let q := '"' :: w.data ++ ['"']
  if q.isPrefixOf cs then some (cs.drop q.length)
  else if w.data.isPrefixOf cs then some (cs.drop w.data.length)
  else none

/-- Match a value at the head of the input, returning the captured text (quotes
included, as in the regex capture) and the remainder. -/
def matchValue (cs : List Char) : Option (List Char × List Char) :=
  match cs with
  | '"' :: rest =>
    let body := rest.takeWhile quotedBodyChar
    (match rest.drop body.length with
     | '"' :: rest2 => some ('"' :: body ++ ['"'], rest2)
     | _ => none)
  | _ =>
    let run := cs.takeWhile bareChar
    if run.isEmpty then none else some (run, cs.drop run.length)

/-- Match one music `file` entry starting at this position: leading whitespace, the
`file` keyword, mandatory whitespace, the value, trailing whitespace. -/
def musicEntryAt (cs : List Char) : Option (List Char × List Char) :=
  match matchKw "file" (cs.dropWhile rsIsWhitespace) with
  | none => none
  | some cs2 =>
    match cs2 with
    | c :: rest =>
      if rsIsWhitespace c then
        match matchValue (rest.dropWhile rsIsWhitespace) with
        | some (cap, cs4) => some (cap, cs4.dropWhile rsIsWhitespace)
        | none => none
      else none
    | [] => none

/-- Fuelled left-to-right scan for music entries. -/
def musicCapturesGo : Nat → List Char → List String
  | 0, _ => []
  | fuel + 1, cs =>
    match cs with
    | [] => []
    | c :: rest =>
      match musicEntryAt (c :: rest) with
      | some (cap, rem) => cap.asString :: musicCapturesGo fuel rem
      | none => musicCapturesGo fuel rest

/-- Embedding of the `RE.captures_iter` loop of `check_music_script_file`: the value
capture (`cap[4]`) of every entry match, in order. -/
def musicFileCaptures (s : String) : List String := musicCapturesGo s.data.length s.data

/-- Match one reslist entry starting at this position: leading whitespace, the value,
mandatory whitespace, the `file` keyword, trailing whitespace. -/
def reslistEntryAt (cs : List Char) : Option (List Char × List Char) :=
  match matchValue (cs.dropWhile rsIsWhitespace) with
  | none => none
  | some (cap, cs2) =>
    match cs2 with
    | c :: rest =>
      if rsIsWhitespace c then
        match matchKw "file" (rest.dropWhile rsIsWhitespace) with
        | some cs4 => some (cap, cs4.dropWhile rsIsWhitespace)
        | none => none
      else none
    | [] => none

/-- Fuelled left-to-right scan for reslist entries. -/
def reslistCapturesGo : Nat → List Char → List String
  | 0, _ => []
  | fuel + 1, cs =>
    match cs with
    | [] => []
    | c :: rest =>
      match reslistEntryAt (c :: rest) with
      | some (cap, rem) => cap.asString :: reslistCapturesGo fuel rem
      | none => reslistCapturesGo fuel rest

/-- Embedding of the `RE.captures_iter` loop of `check_reslist`: the value capture
(`cap[1]`) of every entry match, in order. -/
def reslistFileCaptures (s : String) : List String :=
  reslistCapturesGo s.data.length s.data

/-! ## Music script engine (`src/music_script_builder.rs`) -/

/-- Normalization applied to every captured value: quotes removed, backslashes made
forward, lowercased. -/
def fixedPathOf (v : String) : String := rsToLower (slashFwd (stripQuotes v))

/-- The music extension test of `check_music_script_file`: a path longer than three
characters whose last three characters, lowercased, are not `mp3`. -/
def mp3ExtensionBadB (fixedPath : String) : Bool :=
  decide (fixedPath.data.length > 3) && (rsToLower (lastN fixedPath 3) != "mp3")

/-- The structural error message of `check_music_script_file`. -/
def musicFormatErrorText : String :=
  "Script contains core format mistake!\n  Make sure every bracket and quotation mark has a partner, the main section is labeled \"music\", each file path has a \"file\"section before it, no bracketed sections are empty,and that there are no nested bracketed sections insidenested bracketed sections."

/-- The per-entry loop of `check_music_script_file`: reject a non-mp3 path, then a
path absent from the mp3 snapshot. -/
def musicEntriesLoop (mp3Files : List String) : List String → Except String Unit
  | [] => .ok ()
  | cap :: caps =>
    let fixedPath := fixedPathOf cap
    if mp3ExtensionBadB fixedPath then
      .error ("File " ++ fixedPath ++ " is not an MP3 file!  Please convert it to mp3 format.")
    else if !(mp3Files.contains fixedPath) then
      .error ("Failed to locate music file " ++ fixedPath ++
        " in either the GE:S or local directory tree\nEnsure that the file path is valid and that the file exists.")
    else musicEntriesLoop mp3Files caps

/-- Environment of `check_music_script_file`: whether the install's sound directory
exists, and the cached mp3 snapshot (the union of the install and local sound
scans provided by `generate_mp3_directory_tree`). -/
structure MusicEnv where
  gesSoundDirExists : Bool
  mp3Files : List String

/-- Embedding of `check_music_script_file`.  `.ok warned` distinguishes the
warning-only early return (no install sound directory, `warned = true`) from full
success (`warned = false`). -/
def check_music_script_file (env : MusicEnv) (contents : String) : Except String Bool :=
  if !musicStructMatch contents then .error musicFormatErrorText
  else if !env.gesSoundDirExists then .ok true
  else
    match musicEntriesLoop env.mp3Files (musicFileCaptures contents) with
    | .ok _ => .ok false
    | .error e => .error e

/-- The fixed example playlist used by `create_music_script_file` when the local
sound scan finds nothing. -/
def fallbackMusicList : List String :=
  ["music/classy.mp3", "music/spy.mp3", "music/always_better.mp3",
   "music/shaken_and_stirred.mp3", "music/martini.mp3",
   "music/standard_operating_procedure.mp3"]

/-- The playlist actually emitted by `create_music_script_file`: the local sound scan
result, or the fixed example list when the scan found nothing. -/
def musicEmitted (musicFileNames : List String) : List String :=
  if musicFileNames.isEmpty then fallbackMusicList else musicFileNames

/-- Embedding of `create_music_script_file`: the contents written for the given local
sound scan result (the fallback list when it is empty). -/
def create_music_script_contents (musicFileNames : List String) : String :=
  "\"music\"\r\n\x7b\r\n" ++
    String.join ((musicEmitted musicFileNames).map
      (fun f => "\t\"file\"\t\"" ++ f ++ "\"\r\n")) ++ "\x7d\r\n"

/-- Character data of one generated music `file` line, after its leading tab. -/
def musicCoreData (p : String) : List Char :=
  '"' :: 'f' :: 'i' :: 'l' :: 'e' :: '"' :: '\t' :: '"' ::
    (p.data ++ '"' :: '\r' :: '\n' :: [])

/-- Character data of one generated music `file` line. -/
def musicEntryData (p : String) : List Char := '\t' :: musicCoreData p

/-- Character data of one generated reslist line, after its leading tab. -/
def reslistCoreData (p : String) : List Char :=
  '"' :: (p.data ++ '"' :: '\t' :: '"' :: 'f' :: 'i' :: 'l' :: 'e' :: '"' ::
    '\r' :: '\n' :: [])

/-- Character data of one generated reslist line. -/
def reslistEntryData (p : String) : List Char := '\t' :: reslistCoreData p

/-- Character-safety of an emitted path for the generated quoted-value grammar: every
character is legal inside a quoted regex value (no quote, no brace), is not a
backslash, and is already lowercase. -/
def emittedPathOk (p : String) : Prop :=
  (∀ c ∈ p.data, quotedBodyChar c = true ∧ c ≠ '\\') ∧ rsToLower p = p

/-! ## Reslist validator (`src/reslist_builder.rs`) -/

/-- Modelled from the spec: `check_reslist` calls `shared::get_string_file_extension`,
whose definition is not among the provided source files (only this caller is).  Per
the spec's reconciliation step ("reject if its extension is in the disallowed set")
it yields the extension of a normalized path string: the portion of the final
forward-slash component after its final dot, `""` when that component has no dot. -/
def get_string_file_extension (s : String) : String :=
  let fileName := (s.data.reverse.takeWhile (fun c => c != '/')).reverse
  if fileName.contains '.' then
    (fileName.reverse.takeWhile (fun c => c != '.')).reverse.asString
  else ""

/-- The extensions excluded from reslists (`DISALLOWED_FILETYPES`). -/
def DISALLOWED_FILETYPES : List String := ["bsp", "res", "exe"]

/-- The structural error message of `check_reslist`. -/
def reslistFormatErrorText : String :=
  "Script contains core format mistake!\n  Make sure every bracket and quotation mark has a partner, the main section is labeled \"resources\", each file path has a \"file\"section after it, no bracketed sections are empty,and that there are no nested bracketed sections insidethe main bracketed section."

/-- The per-entry loop of `check_reslist`: reject a disallowed extension, then a path
absent from the release snapshot, then a duplicate; accumulate the checked paths. -/
def reslistEntriesLoop (fileList : List String) :
    List String → List String → Except String (List String)
  | [], checked => .ok checked
  | cap :: caps, checked =>
    let fixedPath := fixedPathOf cap
    if DISALLOWED_FILETYPES.contains (rsToLower (get_string_file_extension fixedPath)) then
      .error ("Resource file " ++ fixedPath ++
        " is of a filetype that should not be included in the reslist!  Map files and the reslist itself do not need to be included in the reslist.")
    else if !(fileList.contains fixedPath) then
      .error ("Failed to locate resource file " ++ fixedPath ++
        "\nEnsure that the file path is valid, and that the file exists.")
    else if checked.contains fixedPath then
      .error ("Resource file " ++ fixedPath ++
        " is referenced multiple times!  Please remove the redundant references.")
    else reslistEntriesLoop fileList caps (checked ++ [fixedPath])

/-- Environment of `check_reslist`: the cached release-root snapshot and the
fullcheck flag of the program arguments. -/
structure ReslistEnv where
  fileList : List String
  fullcheck : Bool

/-- Embedding of `check_reslist`. -/
def check_reslist (env : ReslistEnv) (contents : String) : Except String Unit :=
  if !reslistStructMatch contents then .error reslistFormatErrorText
  else
    match reslistEntriesLoop env.fileList (reslistFileCaptures contents) [] with
    | .error e => .error e
    | .ok checked =>
      if env.fullcheck then .ok ()
      else
        let missingFileList := env.fileList.filter (fun file => !(checked.contains file))
        if missingFileList ≠ [] then
          .error (missingFileList.foldl (fun acc file => acc ++ file ++ " ")
            "Resource files " ++
            " aren\x27t included in the reslist!  Be sure to include entries for them or remove them from the destribution folder.")
        else .ok ()

/-! ## The process-lifetime directory cache (`src/shared.rs`)

The cache state of one call site of `compute_or_get_safe_reference_to_directory_cache`
is the pair of the `DIRLIST_INIT_STATE` mutex contents and the `DIRLIST` static.  The
walks themselves are passed in as the list of per-directory scan results (one
`get_files_in_directory` result per entry of `cache_dirs`); scan I/O failures are
outside this model.  The returned flag records whether the walk was performed. -/

/-- Mutable state owned by one cache call site. -/
structure DirectoryCacheState where
  hasInit : Bool
  directoryCache : Option (List String)

/-- The state of a cache call site before its first call. -/
def initialCacheState : DirectoryCacheState := ⟨false, none⟩

/-- Embedding of `shared::compute_or_get_safe_reference_to_directory_cache`: on an
uninitialized state install an empty cache, append every scan result to it and mark
it initialized; on an initialized state return the cached list unchanged.  Returns
the list handed to the caller, the state after the call, and whether the directory
walks ran. -/
def compute_or_get_safe_reference_to_directory_cache (scans : List (List String))
    (st : DirectoryCacheState) :
    Except String (List String × DirectoryCacheState × Bool) :=
  let cache0 := if !st.hasInit then some [] else st.directoryCache
  match cache0 with
  | none => .error "Failed to create directory cache!"
  | some dirlist =>
    if !st.hasInit then
      let newList := scans.foldl (fun acc scan => acc ++ scan) dirlist
      .ok (newList, ⟨true, some newList⟩, true)
    else
      .ok (dirlist, ⟨st.hasInit, some dirlist⟩, false)

/-! ## Reslist generator (`src/reslist_builder.rs`) -/

/-- Manifest text emitted by `create_reslist` for a non-empty file list. -/
def reslistContents (fileList : List String) : String :=
  "\"resources\"\r\n\x7b\r\n" ++
    String.join (fileList.map (fun file => "\t\"" ++ file ++ "\"\t\"file\"\r\n")) ++
    "\x7d\r\n"

/-- Outcome of `create_reslist`: the manifest contents written (if a file was created
at all) and whether the empty-directory warning was printed. -/
structure CreateReslistResult where
  written : Option String
  warned : Bool

/-- Embedding of `reslist_builder::create_reslist` as a function of the (cached)
release-root file list: an empty list produces a warning and no file; otherwise the
manifest text is written out. -/
def create_reslist (fileList : List String) : CreateReslistResult :=
  if fileList.isEmpty then ⟨none, true⟩
  else ⟨some (reslistContents fileList), false⟩

/-! ## General lemmas about the string primitives -/

/-- A list is a prefix of itself followed by anything. -/
theorem isPrefixOf_append_self (pat t : List Char) : pat.isPrefixOf (pat ++ t) = true := by
  rw [List.isPrefixOf_iff_prefix]
  exact ⟨t, rfl⟩

/-- Occurrence test succeeds on an explicit decomposition. -/
theorem containsSeq_append (pre pat post : List Char) :
    containsSeq pat (pre ++ pat ++ post) = true := by
  induction pre with
  | nil =>
    simp only [List.nil_append]
    cases h : pat ++ post with
    | nil =>
      rcases List.append_eq_nil.mp h with ⟨h1, _⟩
      simp [containsSeq, h1]
    | cons c rest =>
      rw [containsSeq.eq_def]
      cases pat with
      | nil => simp [List.isPrefixOf]
      | cons p ps =>
        simp only [List.cons_append] at h ⊢
        rw [← h]
        simp [isPrefixOf_append_self]
  | cons c pre ih =>
    simp only [List.cons_append]
    rw [containsSeq.eq_def]
    simp only [Bool.or_eq_true]
    right
    exact ih

/-- String-level form of `containsSeq_append`. -/
theorem strContains_of_decomp {s pat : String} (pre post : List Char)
    (h : s.data = pre ++ pat.data ++ post) : strContains s pat = true := by
  unfold strContains
  rw [h]
  exact containsSeq_append _ _ _

/-- The init string is a prefix of the space-separated term-list fold used by the
missing-item error messages. -/
theorem foldl_names_pref (l : List String) (init : String) :
    ∃ tail, (l.foldl (fun acc t => acc ++ t ++ " ") init).data = init.data ++ tail := by
  induction l generalizing init with
  | nil => exact ⟨[], by simp⟩
  | cons x rest ih =>
    obtain ⟨tail, htail⟩ := ih (init ++ x ++ " ")
    refine ⟨x.data ++ " ".data ++ tail, ?_⟩
    simp only [List.foldl_cons, htail, String.data_append]
    simp [List.append_assoc]

/-- Every member of the folded term list occurs in the resulting error message. -/
theorem foldl_names_mem (l : List String) (init : String) (t : String) (ht : t ∈ l) :
    strContains (l.foldl (fun acc s => acc ++ s ++ " ") init) t = true := by
  induction l generalizing init with
  | nil => cases ht
  | cons x rest ih =>
    rcases List.mem_cons.mp ht with h | h
    · subst h
      obtain ⟨tail, htail⟩ := foldl_names_pref rest (init ++ t ++ " ")
      refine strContains_of_decomp init.data (" ".data ++ tail) ?_
      simp only [List.foldl_cons, htail, String.data_append]
      simp [List.append_assoc]
    · simp only [List.foldl_cons]
      exact ih _ h

/-! ## Map script validator: basic facts -/

/-- Unfolding of the validator when the line loop finishes in state `st`. -/
theorem check_map_script_file_eq {docLines : List String} {st : MapCheckState}
    (h : runMapScriptLines docLines = .ok st) :
    check_map_script_file docLines = mapScriptEndCheck st := by
  unfold check_map_script_file
  rw [h]
  rfl

/-- C1 (amended).  When the line loop of `check_map_script_file` reaches end of file
outside any section, missing required items of only one kind are reported at a time:
if any flat value term is still pending, the validator rejects with a message naming
every pending value term (and only that message); only when no value term is pending
does a pending section produce a message naming every pending section term.  In
particular a script missing both `TeamThreshold` and `GamemodeWeights` is rejected
with the value-term message alone. -/
theorem map_script_missing_items_one_kind (docLines : List String) (st : MapCheckState)
    (hrun : runMapScriptLines docLines = .ok st) (hct : st.checkingTerm = "") :
    (st.neededValueTerms ≠ [] →
      ∃ e, check_map_script_file docLines = .error e ∧
        ∀ t ∈ st.neededValueTerms, strContains e t = true) ∧
    (st.neededValueTerms = [] → st.neededBracketTerms ≠ [] →
      ∃ e, check_map_script_file docLines = .error e ∧
        ∀ t ∈ st.neededBracketTerms, strContains e t = true) := by
  rw [check_map_script_file_eq hrun]
  unfold mapScriptEndCheck
  rw [if_neg (by simp [hct])]
  constructor
  · intro hv
    rw [if_pos hv]
    exact ⟨_, rfl, fun t ht => foldl_names_mem _ _ t ht⟩
  · intro hv hb
    rw [if_neg (by simp [hv]), if_pos hb]
    exact ⟨_, rfl, fun t ht => foldl_names_mem _ _ t ht⟩

/-- Witness for `map_script_missing_items_one_kind` at the empty document, where all
five value terms and all three bracket terms are still pending. -/
theorem map_script_missing_items_one_kind_witness :
    ∃ e, check_map_script_file [] = .error e ∧
      ∀ t ∈ mapNeededValueTerms, strContains e t = true :=
  (map_script_missing_items_one_kind []
    ⟨mapNeededValueTerms, mapNeededBracketTerms, ""⟩ rfl rfl).1 (by decide)

/-- C1 (counterexample).  A map script missing exactly `TeamThreshold` and the
`GamemodeWeights` section is rejected with a message that names `TeamThreshold` but
does not name `GamemodeWeights`: the claimed single message enumerating the missing
items of both kinds does not exist. -/
theorem map_script_missing_both_kinds_counterexample :
    check_map_script_file
      ["BaseWeight 1", "MaxPlayers 2", "MinPlayers 3", "ResIntensity 4",
       "WeaponsetWeights", "\x7b", "x 0", "\x7d",
       "TeamGamemodeWeights", "\x7b", "y 0", "\x7d"] =
      .error "[Map Script Validate Error] Absent value terms: TeamThreshold " ∧
    strContains "[Map Script Validate Error] Absent value terms: TeamThreshold "
      "TeamThreshold" = true ∧
    strContains "[Map Script Validate Error] Absent value terms: TeamThreshold "
      "GamemodeWeights" = false :=
  ⟨rfl, rfl, rfl⟩

/-- C7 (amended).  A scalar value is validated as a whole number in exactly two
places: on a line inside a section (every content line there is checked), and on a
top-level line whose identifier is a still-pending required field.  In both cases a
missing or non-parsing value is a format error naming the offending identifier.
Top-level lines with any other identifier are not value-checked (see the
counterexample). -/
theorem map_script_value_checks (st : MapCheckState) (line id : String)
    (rest : List String) (hsplit : rsSplitWhitespace line = id :: rest)
    (hcomment : rsStartsWith line "//" = false)
    (hbad : valueTokenBad rest.head?) :
    (st.checkingTerm ≠ "" → rsStartsWith line "\x7b" = false →
      rsStartsWith line "\x7d" = false →
      ∃ e, processMapScriptLine st line = .error e ∧ strContains e id = true) ∧
    (st.checkingTerm = "" → st.neededValueTerms.contains id = true →
      ∃ e, processMapScriptLine st line = .error e ∧ strContains e id = true) := by
  have hcheck : ∃ e, check_line_value_validity id rest.head? = .error e ∧
      strContains e id = true := by
    rcases hbad with h | ⟨s, hs, hp⟩
    · refine ⟨_, by rw [check_line_value_validity.eq_def, h], ?_⟩
      exact strContains_of_decomp
        "[Map Script Validate Error] Expected value for parameter ".data []
        (by simp [String.data_append])
    · refine ⟨"[Map Script Validate Error] Parameter for " ++ id ++
        " not a valid whole number value!",
        by rw [check_line_value_validity.eq_def, hs]; simp only [hp], ?_⟩
      exact strContains_of_decomp
        "[Map Script Validate Error] Parameter for ".data
        " not a valid whole number value!".data
        (by simp [String.data_append])
  obtain ⟨e, he, hne⟩ := hcheck
  constructor
  · intro hct hob hcb
    refine ⟨e, ?_, hne⟩
    unfold processMapScriptLine
    rw [hcomment]
    simp only [Bool.false_eq_true, if_false]
    rw [if_neg hct, hob, hcb]
    simp only [Bool.false_eq_true, if_false, hsplit]
    rw [he]
    rfl
  · intro hct hmem
    refine ⟨e, ?_, hne⟩
    unfold processMapScriptLine
    rw [hcomment]
    simp only [Bool.false_eq_true, if_false]
    rw [if_pos hct]
    simp only [hsplit, hmem, if_pos]
    rw [he]
    rfl

/-- Witness for `map_script_value_checks`: the line `x notanumber` is rejected, naming
`x`, both inside a section and as the pending top-level field line `BaseWeight
notanumber`. -/
theorem map_script_value_checks_witness :
    (∃ e, processMapScriptLine ⟨[], [], "WeaponsetWeights"⟩ "x notanumber" = .error e ∧
      strContains e "x" = true) ∧
    (∃ e, processMapScriptLine ⟨mapNeededValueTerms, mapNeededBracketTerms, ""⟩
        "BaseWeight notanumber" = .error e ∧ strContains e "BaseWeight" = true) :=
  ⟨(map_script_value_checks ⟨[], [], "WeaponsetWeights"⟩ "x notanumber" "x"
      ["notanumber"] rfl rfl (Or.inr ⟨"notanumber", rfl, rfl⟩)).1 (by decide) rfl rfl,
   (map_script_value_checks ⟨mapNeededValueTerms, mapNeededBracketTerms, ""⟩
      "BaseWeight notanumber" "BaseWeight" ["notanumber"] rfl rfl
      (Or.inr ⟨"notanumber", rfl, rfl⟩)).2 rfl rfl⟩

/-- C7 (counterexample).  A top-level line whose identifier is not a pending required
field is not value-checked at all: a document containing the extra line
`ExtraTerm notanumber`, whose value does not parse as a whole number, still validates
successfully, so not every scalar value in the document must parse. -/
theorem map_script_unchecked_value_counterexample :
    check_map_script_file
      ["BaseWeight 1", "MaxPlayers 2", "MinPlayers 3", "ResIntensity 4",
       "TeamThreshold 5",
       "WeaponsetWeights", "\x7b", "x 0", "\x7d",
       "GamemodeWeights", "\x7b", "x 0", "\x7d",
       "TeamGamemodeWeights", "\x7b", "x 0", "\x7d",
       "ExtraTerm notanumber"] = .ok () ∧
    parseI32 "notanumber" = none ∧
    mapNeededValueTerms.contains "ExtraTerm" = false ∧
    mapNeededBracketTerms.contains "ExtraTerm" = false :=
  ⟨rfl, rfl, rfl, rfl⟩

/-! ## Character-level normalization lemmas -/

/-- Conversion of a valid code point round-trips through `Char.ofNat`. -/
theorem toNat_ofNat_valid (n : Nat) (h : n < 55296) : (Char.ofNat n).toNat = n := by
  unfold Char.ofNat Char.toNat
  rw [dif_pos (Or.inl h)]
  rfl

/-- Character order agrees with the order of the underlying code points. -/
theorem char_le_iff_toNat (a b : Char) : a ≤ b ↔ a.toNat ≤ b.toNat :=
  ⟨fun h => h, fun h => h⟩

/-- Lowercasing is idempotent: the output of `lowerChar` is a fixed point. -/
theorem lowerChar_fix (c : Char) : lowerChar (lowerChar c) = lowerChar c := by
  unfold lowerChar
  by_cases h : 'A' ≤ c ∧ c ≤ 'Z'
  · rw [if_pos h]
    have h65 : 65 ≤ c.toNat := (char_le_iff_toNat _ _).mp h.1
    have h90 : c.toNat ≤ 90 := (char_le_iff_toNat _ _).mp h.2
    have ht : (Char.ofNat (c.toNat + 32)).toNat = c.toNat + 32 :=
      toNat_ofNat_valid _ (by omega)
    rw [if_neg]
    intro ⟨_, h2⟩
    have hle := (char_le_iff_toNat _ _).mp h2
    rw [ht] at hle
    have hz : ('Z' : Char).toNat = 90 := rfl
    rw [hz] at hle
    omega
  · rw [if_neg h, if_neg h]

/-- Lowercasing never produces a character below the lowercase letters, in particular
never a slash or backslash. -/
theorem lowerChar_eq_low {c : Char} {d : Char} (hd : d.toNat < 65)
    (h : lowerChar c = d) : c = d := by
  unfold lowerChar at h
  by_cases hc : 'A' ≤ c ∧ c ≤ 'Z'
  · rw [if_pos hc] at h
    have h65 : 65 ≤ c.toNat := (char_le_iff_toNat _ _).mp hc.1
    have h90 : c.toNat ≤ 90 := (char_le_iff_toNat _ _).mp hc.2
    have ht : (Char.ofNat (c.toNat + 32)).toNat = c.toNat + 32 :=
      toNat_ofNat_valid _ (by omega)
    have := congrArg Char.toNat h
    rw [ht] at this
    omega
  · rwa [if_neg hc] at h

/-- The slash-forwarding map produces no backslashes. -/
theorem slashFwd_no_backslash (c : Char) :
    (if c = '\\' then '/' else c) ≠ '\\' := by
  by_cases h : c = '\\' <;> simp [h]

/-! ## C2: the directory snapshot cache -/

/-- C2.  The directory cache of `compute_or_get_safe_reference_to_directory_cache` is
single-flight per call site (each call site holds one `(roots, filter)` key): the
first call from the uninitialized state performs the walks once and stores their
concatenation, and every later call performs no walk, returns exactly the stored
snapshot, and leaves the state unchanged — the snapshot is never mutated after
construction. -/
theorem directory_cache_single_flight (scans : List (List String)) :
    ∃ snapshot st₁,
      compute_or_get_safe_reference_to_directory_cache scans initialCacheState =
        .ok (snapshot, st₁, true) ∧
      snapshot = scans.foldl (fun acc scan => acc ++ scan) [] ∧
      st₁ = ⟨true, some snapshot⟩ ∧
      ∀ laterScans,
        compute_or_get_safe_reference_to_directory_cache laterScans st₁ =
          .ok (snapshot, st₁, false) :=
  ⟨_, _, rfl, rfl, rfl, fun _ => rfl⟩

/-! ## C9: the whole-installation sweep -/

/-- Worker lemma: the sweep stops at the first matching entry whose check fails,
whatever has been checked before. -/
theorem checkAllFilesGo_first_failure (extension : String)
    (checkFunc : String → Except String Unit) (post : List WalkEntry)
    (entry : WalkEntry) (msg : String)
    (hmatch : sweepMatches extension entry = true)
    (hfail : checkFunc entry.path = .error msg) :
    ∀ (pre : List WalkEntry) (checked : List String),
      (∀ e ∈ pre, sweepMatches extension e = true → checkFunc e.path = .ok ()) →
      checkAllFilesGo extension checkFunc (pre ++ entry :: post) checked =
        (.error ("While proccessing " ++ entry.path ++
          " the following error was encountered:\n" ++ msg),
         checked ++ (pre.filter (sweepMatches extension)).map WalkEntry.path ++
           [entry.path]) := by
  have hm' := hmatch
  simp only [sweepMatches, Bool.and_eq_true, beq_iff_eq] at hm'
  obtain ⟨hfile, hext⟩ := hm'
  intro pre
  induction pre with
  | nil =>
    intro checked _
    simp only [List.nil_append]
    unfold checkAllFilesGo
    rw [hfile]
    simp only [Bool.not_true, Bool.false_eq_true, if_false]
    rw [if_neg (by rw [hext]; exact fun h => h rfl)]
    rw [hfail]
    simp
  | cons e pre ih =>
    intro checked hok
    simp only [List.cons_append]
    unfold checkAllFilesGo
    by_cases hm : sweepMatches extension e = true
    · have hm' := hm
      simp only [sweepMatches, Bool.and_eq_true, beq_iff_eq] at hm'
      obtain ⟨hefile, heext⟩ := hm'
      rw [hefile]
      simp only [Bool.not_true, Bool.false_eq_true, if_false]
      rw [if_neg (by rw [heext]; exact fun h => h rfl)]
      rw [hok e (List.mem_cons_self e pre) hm]
      rw [ih (checked ++ [e.path]) (fun x hx hmx => hok x (List.mem_cons_of_mem _ hx) hmx)]
      simp [List.filter_cons, hm, List.append_assoc]
    · by_cases hefile : e.isFile = true
      · have heext : ¬ rsToLower (get_file_extension e.path) = extension := by
          intro hcon
          apply hm
          unfold sweepMatches
          rw [hefile, hcon]
          simp
        rw [hefile]
        simp only [Bool.not_true, Bool.false_eq_true, if_false]
        rw [if_pos heext]
        rw [ih checked (fun x hx hmx => hok x (List.mem_cons_of_mem _ hx) hmx)]
        simp [List.filter_cons, hm]
      · have hefile' : e.isFile = false := by
          cases h : e.isFile
          · rfl
          · exact absurd h hefile
        rw [hefile']
        simp only [Bool.not_false, if_true]
        rw [ih checked (fun x hx hmx => hok x (List.mem_cons_of_mem _ hx) hmx)]
        simp [List.filter_cons, hm]

/-- C9.  In whole-installation mode a per-dialect sweep stops at the first file of the
target extension whose check fails: the returned error names that file and wraps its
error message, and no file later in the walk order is checked (the list of checked
files covers only the passing prefix and the failing file, independent of what
follows). -/
theorem fullcheck_sweep_stops_at_first_failure (extension : String)
    (checkFunc : String → Except String Unit) (pre post : List WalkEntry)
    (entry : WalkEntry) (msg : String)
    (hmatch : sweepMatches extension entry = true)
    (hfail : checkFunc entry.path = .error msg)
    (hpre : ∀ e ∈ pre, sweepMatches extension e = true → checkFunc e.path = .ok ()) :
    check_all_files_in_dir_with_func extension checkFunc (pre ++ entry :: post) =
      (.error ("While proccessing " ++ entry.path ++
        " the following error was encountered:\n" ++ msg),
       (pre.filter (sweepMatches extension)).map WalkEntry.path ++ [entry.path]) := by
  unfold check_all_files_in_dir_with_func
  rw [checkAllFilesGo_first_failure extension checkFunc post entry msg hmatch hfail pre [] hpre]
  simp

/-- Witness for `fullcheck_sweep_stops_at_first_failure`: a sweep over one passing
file, one failing file and one trailing file reports the failing file and never
reaches the trailing one. -/
theorem fullcheck_sweep_stops_witness :
    check_all_files_in_dir_with_func "txt"
      (fun p => if p = "b.txt" then .error "bad" else .ok ())
      [⟨"a.txt", true⟩, ⟨"b.txt", true⟩, ⟨"c.txt", true⟩] =
      (.error "While proccessing b.txt the following error was encountered:\nbad",
       ["a.txt", "b.txt"]) := by
  have h := fullcheck_sweep_stops_at_first_failure "txt"
    (fun p => if p = "b.txt" then .error "bad" else .ok ())
    [⟨"a.txt", true⟩] [⟨"c.txt", true⟩] ⟨"b.txt", true⟩ "bad"
    (by decide) rfl (by intro e he hm; rw [List.mem_singleton] at he; subst he; rfl)
  simpa using h

/-! ## C10: reslist generation on an empty snapshot -/

/-- C10.  When the release-root snapshot is empty, `create_reslist` succeeds without
writing any manifest (the model's `written` field stays `none`, so the file system is
untouched) and only the warning is emitted. -/
theorem create_reslist_empty_snapshot :
    create_reslist [] = ⟨none, true⟩ ∧ (create_reslist []).written = none ∧
    (create_reslist []).warned = true :=
  ⟨rfl, rfl, rfl⟩

/-! ## Decimal rendering and parsing round-trip -/

/-- Code point of a rendered digit. -/
theorem digitChar_toNat (d : Nat) (h : d < 10) : (digitChar d).toNat = 48 + d :=
  toNat_ofNat_valid _ (by omega)

/-- Reading back a rendered digit. -/
theorem digitVal?_digitChar (d : Nat) (h : d < 10) : digitVal? (digitChar d) = some d := by
  unfold digitVal?
  have h0 : ('0' : Char).toNat = 48 := rfl
  have h9 : ('9' : Char).toNat = 57 := rfl
  rw [if_pos ⟨(char_le_iff_toNat _ _).mpr (by rw [h0, digitChar_toNat d h]; omega),
    (char_le_iff_toNat _ _).mpr (by rw [h9, digitChar_toNat d h]; omega)⟩]
  rw [digitChar_toNat d h]
  congr 1
  omega

/-- The accumulating reader splits over an append once the first part succeeds. -/
theorem parseDigitsGo_append (l₁ l₂ : List Char) (acc m : Nat)
    (h : parseDigitsGo acc l₁ = some m) :
    parseDigitsGo acc (l₁ ++ l₂) = parseDigitsGo m l₂ := by
  induction l₁ generalizing acc with
  | nil =>
    simp only [parseDigitsGo] at h
    cases h
    rfl
  | cons c cs ih =>
    simp only [parseDigitsGo] at h ⊢
    cases hd : digitVal? c with
    | none => rw [hd] at h; cases h
    | some d =>
      rw [hd] at h
      exact ih _ h

/-- Every character of the digit expansion is an ASCII digit. -/
theorem natToDigitsAux_digits (fuel : Nat) :
    ∀ n, n < fuel → ∀ c ∈ natToDigitsAux fuel n, 48 ≤ c.toNat ∧ c.toNat ≤ 57 := by
  induction fuel with
  | zero => intro n h; omega
  | succ fuel ih =>
    intro n _ c hc
    unfold natToDigitsAux at hc
    by_cases h10 : n < 10
    · rw [if_pos h10] at hc
      rw [List.mem_singleton] at hc
      subst hc
      rw [digitChar_toNat n h10]
      omega
    · rw [if_neg h10] at hc
      rcases List.mem_append.mp hc with hc | hc
      · have hdiv : n / 10 < fuel := by
          have := Nat.div_lt_self (n := n) (k := 10) (by omega) (by omega)
          omega
        exact ih (n / 10) hdiv c hc
      · rw [List.mem_singleton] at hc
        subst hc
        have hm : n % 10 < 10 := Nat.mod_lt n (by omega)
        rw [digitChar_toNat _ hm]
        omega

/-- Reading back a full digit expansion recovers the number. -/
theorem parseDigitsGo_natToDigitsAux (fuel : Nat) :
    ∀ n, n < fuel → parseDigitsGo 0 (natToDigitsAux fuel n) = some n := by
  induction fuel with
  | zero => intro n h; omega
  | succ fuel ih =>
    intro n hn
    unfold natToDigitsAux
    by_cases h10 : n < 10
    · rw [if_pos h10]
      simp only [parseDigitsGo, digitVal?_digitChar n h10]
      congr 1
      omega
    · rw [if_neg h10]
      have hdiv : n / 10 < fuel := by
        have := Nat.div_lt_self (n := n) (k := 10) (by omega) (by omega)
        omega
      rw [parseDigitsGo_append _ _ _ _ (ih (n / 10) hdiv)]
      have hm : n % 10 < 10 := Nat.mod_lt n (by omega)
      simp only [parseDigitsGo, digitVal?_digitChar _ hm]
      congr 1
      omega

/-- The digit expansion is never empty. -/
theorem natToDigits_ne_nil (n : Nat) : natToDigits n ≠ [] := by
  unfold natToDigits natToDigitsAux
  by_cases h10 : n < 10
  · rw [if_pos h10]; simp
  · rw [if_neg h10]; simp

/-- Full digit round trip at the `parseDigits` interface. -/
theorem parseDigits_natToDigits (n : Nat) : parseDigits (natToDigits n) = some n := by
  cases hd : natToDigits n with
  | nil => exact absurd hd (natToDigits_ne_nil n)
  | cons c cs =>
    have : parseDigits (c :: cs) = parseDigitsGo 0 (c :: cs) := rfl
    rw [this, ← hd]
    exact parseDigitsGo_natToDigitsAux (n + 1) n (Nat.lt_succ_self n)

/-- Every character of a rendered integer is the minus sign or an ASCII digit. -/
theorem intToString_chars (k : Int) :
    ∀ c ∈ (intToString k).data, c = '-' ∨ (48 ≤ c.toNat ∧ c.toNat ≤ 57) := by
  unfold intToString
  by_cases hk : k < 0
  · rw [if_pos hk]
    intro c hc
    rcases List.mem_cons.mp hc with h | h
    · exact Or.inl h
    · exact Or.inr (natToDigitsAux_digits _ _ (Nat.lt_succ_self _) c h)
  · rw [if_neg hk]
    intro c hc
    exact Or.inr (natToDigitsAux_digits _ _ (Nat.lt_succ_self _) c hc)

/-- A rendered integer is never the empty string. -/
theorem intToString_ne_nil (k : Int) : (intToString k).data ≠ [] := by
  unfold intToString
  by_cases hk : k < 0
  · rw [if_pos hk]; simp
  · rw [if_neg hk]; exact natToDigits_ne_nil _

/-- No character of a rendered integer is whitespace. -/
theorem intToString_no_ws (k : Int) :
    ∀ c ∈ (intToString k).data, rsIsWhitespace c = false := by
  intro c hc
  have hn : c ≠ ' ' ∧ c ≠ '\t' ∧ c ≠ '\n' ∧ c ≠ '\r' := by
    rcases intToString_chars k c hc with h | h
    · subst h; refine ⟨by decide, by decide, by decide, by decide⟩
    · refine ⟨?_, ?_, ?_, ?_⟩ <;> (intro h'; subst h'; revert h; decide)
  simp only [rsIsWhitespace]
  rw [beq_eq_false_iff_ne.mpr hn.1, beq_eq_false_iff_ne.mpr hn.2.1,
    beq_eq_false_iff_ne.mpr hn.2.2.1, beq_eq_false_iff_ne.mpr hn.2.2.2]
  rfl

/-- No character of a rendered integer is a newline or carriage return. -/
theorem intToString_no_nl (k : Int) :
    ∀ c ∈ (intToString k).data, c ≠ '\n' ∧ c ≠ '\r' := by
  intro c hc
  rcases intToString_chars k c hc with h | h
  · subst h; exact ⟨by decide, by decide⟩
  · exact ⟨by intro h'; subst h'; revert h; decide,
      by intro h'; subst h'; revert h; decide⟩

/-- Parsing a character list headed by the minus sign takes the minus branch of
`parseI32`. -/
theorem parseI32_neg_eval (rest : List Char) (m : Nat) (h : parseDigits rest = some m) :
    parseI32 ⟨'-' :: rest⟩ =
      if i32Min ≤ -(m : Int) then some (-(m : Int)) else none := by
  have h0 : parseI32 ⟨'-' :: rest⟩ =
      match parseDigits rest with
      | some m => if i32Min ≤ -(m : Int) then some (-(m : Int)) else none
      | none => none := rfl
  rw [h0, h]

/-- Round trip of the `i32` rendering through the `i32` parser. -/
theorem parseI32_intToString (k : Int) (h : isI32 k) :
    parseI32 (intToString k) = some k := by
  obtain ⟨hmin, hmax⟩ := h
  unfold intToString
  by_cases hk : k < 0
  · rw [if_pos hk, parseI32_neg_eval _ _ (parseDigits_natToDigits _)]
    have hcast : ((-k).toNat : Int) = -k := Int.toNat_of_nonneg (by omega)
    rw [if_pos (by rw [hcast]; unfold i32Min at hmin ⊢; omega)]
    rw [hcast]
    simp
  · rw [if_neg hk]
    cases hd : natToDigits k.toNat with
    | nil => exact absurd hd (natToDigits_ne_nil _)
    | cons c cs =>
      have hdigit : 48 ≤ c.toNat ∧ c.toNat ≤ 57 := by
        have hmem : c ∈ natToDigits k.toNat := by
          rw [hd]
          exact List.mem_cons_self _ _
        exact natToDigitsAux_digits (k.toNat + 1) k.toNat (Nat.lt_succ_self _) c hmem
      rw [parseI32.eq_def]
      simp only [String.data]
      split
      · rename_i heq
        cases heq
      · rename_i heq
        rw [List.cons.injEq] at heq
        have : ('+' : Char).toNat = 43 := rfl
        rw [← heq.1] at this
        omega
      · rename_i heq
        rw [List.cons.injEq] at heq
        have : ('-' : Char).toNat = 45 := rfl
        rw [← heq.1] at this
        omega
      · have hp : parseDigits (c :: cs) = some k.toNat := by
          rw [show parseDigits (c :: cs) = parseDigitsGo 0 (c :: cs) from rfl, ← hd]
          exact parseDigitsGo_natToDigitsAux (k.toNat + 1) k.toNat (Nat.lt_succ_self _)
        rw [hp]
        have hcast : (k.toNat : Int) = k := Int.toNat_of_nonneg (by omega)
        show (if ((k.toNat : Int)) ≤ i32Max then some ((k.toNat : Int)) else none) =
          some k
        rw [if_pos (by rw [hcast]; exact hmax)]
        rw [hcast]

/-! ## C8: the directory snapshot entries -/

/-- A lowered character can only coincide with a character outside the lowercase
letters if the input already was that character. -/
theorem lowerChar_preserve_ne {y d : Char} (hd : d.toNat < 97 ∨ 122 < d.toNat)
    (hne : y ≠ d) : lowerChar y ≠ d := by
  unfold lowerChar
  by_cases hy : 'A' ≤ y ∧ y ≤ 'Z'
  · rw [if_pos hy]
    have h65 : 65 ≤ y.toNat := (char_le_iff_toNat _ _).mp hy.1
    have h90 : y.toNat ≤ 90 := (char_le_iff_toNat _ _).mp hy.2
    have ht : (Char.ofNat (y.toNat + 32)).toNat = y.toNat + 32 :=
      toNat_ofNat_valid _ (by omega)
    intro h
    have := congrArg Char.toNat h
    rw [ht] at this
    omega
  · rwa [if_neg hy]

/-- A filterMap whose function is a guarded `some` is a filter followed by a map. -/
theorem filterMap_guard {α β : Type} (p : α → Bool) (f : α → β) (l : List α) :
    l.filterMap (fun a => if p a then some (f a) else none) = (l.filter p).map f := by
  induction l with
  | nil => rfl
  | cons a l ih =>
    rw [List.filterMap_cons, List.filter_cons]
    by_cases h : p a = true
    · simp only [h, if_true, ih, List.map_cons]
    · simp only [Bool.not_eq_true] at h
      simp only [h, Bool.false_eq_true, if_false, ih]

/-- The per-entry body of `get_files_in_directory` keeps an entry exactly under
`keepsEntry`. -/
theorem gfid_entry_eq (dirPath targetExtension : String)
    (excludedExtensions : List String) (entry : WalkEntry) :
    (if !entry.isFile then none
     else
       let fileExtension := get_file_extension entry.path
       if targetExtension ≠ "" ∧ rsToLower fileExtension ≠ targetExtension then none
       else if excludedExtensions ≠ [] ∧
           excludedExtensions.contains (rsToLower fileExtension) then none
       else some (snapshotPathOf dirPath entry)) =
      if keepsEntry targetExtension excludedExtensions entry then
        some (snapshotPathOf dirPath entry)
      else none := by
  unfold keepsEntry
  cases hf : entry.isFile with
  | false => simp
  | true =>
    simp only [Bool.not_true, Bool.false_eq_true, if_false, Bool.true_and]
    by_cases ht : targetExtension = ""
    · subst ht
      simp only [ne_eq, not_true_eq_false, false_and, if_false, beq_self_eq_true,
        Bool.true_or]
      by_cases hx : excludedExtensions = []
      · subst hx
        simp
      · by_cases hc : excludedExtensions.contains
            (rsToLower (get_file_extension entry.path)) = true
        · simp [hx, hc, List.isEmpty_iff]
        · simp only [Bool.not_eq_true] at hc
          simp [hx, hc, List.isEmpty_iff]
    · by_cases he : rsToLower (get_file_extension entry.path) = targetExtension
      · simp only [ne_eq, ht, not_false_iff, true_and, he, not_true_eq_false, if_false,
          beq_self_eq_true, Bool.or_true]
        by_cases hx : excludedExtensions = []
        · subst hx
          simp
        · by_cases hc : excludedExtensions.contains
              (rsToLower (get_file_extension entry.path)) = true
          · simp [hx, hc, List.isEmpty_iff]
          · simp only [Bool.not_eq_true] at hc
            simp [hx, hc, List.isEmpty_iff]
      · have hb1 : (targetExtension == "") = false := by
          simp [ht]
        have hb2 : (rsToLower (get_file_extension entry.path) == targetExtension) =
            false := by
          simp [he]
        simp [ht, he, hb1, hb2]

/-- C8 (amended).  A walk entry is kept by `get_files_in_directory` if and only if it
is a regular file whose lowercased extension equals the required extension verbatim
(when one is given) and whose lowercased extension is not in the excluded list
verbatim — so the comparison is case-insensitive in the file's extension but exact in
the given filter strings.  Every emitted path is the entry's path relative to its own
scanned root, forward-slash separated, lowercase and without a leading separator. -/
theorem get_files_in_directory_spec (dirPath targetExtension : String)
    (excludedExtensions : List String) (entries : List WalkEntry)
    (hshape : ∀ e ∈ entries, ∃ rel : String,
      (e.path = dirPath ++ "/" ++ rel ∨ e.path = dirPath ++ "\\" ++ rel) ∧
      rsStartsWith rel "/" = false ∧ rsStartsWith rel "\\" = false) :
    get_files_in_directory dirPath entries targetExtension excludedExtensions =
      (entries.filter (keepsEntry targetExtension excludedExtensions)).map
        (snapshotPathOf dirPath) ∧
    ∀ out ∈ get_files_in_directory dirPath entries targetExtension excludedExtensions,
      (∀ c ∈ out.data, c ≠ '\\' ∧ lowerChar c = c) ∧
      rsStartsWith out "/" = false ∧
      ∃ e ∈ entries, ∃ rel : String,
        keepsEntry targetExtension excludedExtensions e = true ∧
        (e.path = dirPath ++ "/" ++ rel ∨ e.path = dirPath ++ "\\" ++ rel) ∧
        out = rsToLower (slashFwd rel) := by
  have heq : get_files_in_directory dirPath entries targetExtension excludedExtensions =
      (entries.filter (keepsEntry targetExtension excludedExtensions)).map
        (snapshotPathOf dirPath) := by
    unfold get_files_in_directory
    rw [← filterMap_guard (keepsEntry targetExtension excludedExtensions)
      (snapshotPathOf dirPath) entries]
    exact List.filterMap_congr (fun e _ => gfid_entry_eq dirPath targetExtension
      excludedExtensions e)
  refine ⟨heq, ?_⟩
  intro out hout
  rw [heq] at hout
  obtain ⟨e, he, hmap⟩ := List.mem_map.mp hout
  have hkeep := (List.mem_filter.mp he).2
  have hemem := (List.mem_filter.mp he).1
  obtain ⟨rel, hrel, hrel1, hrel2⟩ := hshape e hemem
  have hsnap : snapshotPathOf dirPath e = rsToLower (slashFwd rel) := by
    unfold snapshotPathOf
    rcases hrel with hrel | hrel
    · have hdata : e.path.data = dirPath.data ++ '/' :: rel.data := by
        rw [hrel]
        simp [String.data_append]
      rw [hdata, List.drop_left]
      have hstrip : stripLeadSep ⟨'/' :: rel.data⟩ = rel := by
        unfold stripLeadSep rsStartsWith
        simp [List.isPrefixOf]
      rw [hstrip]
    · have hdata : e.path.data = dirPath.data ++ '\\' :: rel.data := by
        rw [hrel]
        simp [String.data_append]
      rw [hdata, List.drop_left]
      have hstrip : stripLeadSep ⟨'\\' :: rel.data⟩ = rel := by
        unfold stripLeadSep rsStartsWith
        simp [List.isPrefixOf]
      rw [hstrip]
  have hout_eq : out = rsToLower (slashFwd rel) := by rw [← hmap, hsnap]
  refine ⟨?_, ?_, e, hemem, rel, hkeep, hrel, hout_eq⟩
  · intro c hc
    rw [hout_eq] at hc
    unfold rsToLower slashFwd at hc
    simp only [List.map_map, List.mem_map] at hc
    obtain ⟨y, _, hy⟩ := hc
    simp only [Function.comp] at hy
    constructor
    · rw [← hy]
      exact lowerChar_preserve_ne (Or.inl (by decide)) (slashFwd_no_backslash y)
    · rw [← hy]
      exact lowerChar_fix _
  · rw [hout_eq]
    unfold rsToLower slashFwd rsStartsWith
    cases hrd : rel.data with
    | nil => simp [List.isPrefixOf]
    | cons r rs =>
      have hds : "/".data = ['/'] := rfl
      have hdb : "\\".data = ['\\'] := rfl
      have hr_slash : r ≠ '/' := by
        intro h
        unfold rsStartsWith at hrel1
        rw [hds, hrd, h] at hrel1
        simp [List.isPrefixOf] at hrel1
      have hr_back : r ≠ '\\' := by
        intro h
        unfold rsStartsWith at hrel2
        rw [hdb, hrd, h] at hrel2
        simp [List.isPrefixOf] at hrel2
      have hmapped : (if r = '\\' then '/' else r) = r := by rw [if_neg hr_back]
      have hlow : lowerChar r ≠ '/' :=
        lowerChar_preserve_ne (Or.inl (by decide)) hr_slash
      simp only [hrd, List.map_cons, List.isPrefixOf, hmapped]
      rw [beq_eq_false_iff_ne.mpr (Ne.symm hlow)]
      rfl

/-- Witness for `get_files_in_directory_spec` at a one-entry walk with an uppercase,
backslashed path. -/
theorem get_files_in_directory_spec_witness :
    get_files_in_directory "root" [⟨"root/Sub\\A.TXT", true⟩] "txt" [] =
      ([(⟨"root/Sub\\A.TXT", true⟩ : WalkEntry)].filter (keepsEntry "txt" [])).map
        (snapshotPathOf "root") :=
  (get_files_in_directory_spec "root" "txt" [] [⟨"root/Sub\\A.TXT", true⟩]
    (by
      intro e he
      rw [List.mem_singleton] at he
      subst he
      exact ⟨"Sub\\A.TXT", Or.inl rfl, rfl, rfl⟩)).1

/-- C8 (counterexample).  The filter comparisons are not case-insensitive in the
given filter strings: a file `Song.MP3` is dropped although the required extension
`MP3` matches it case-insensitively, and a file `tool.exe` is kept although the
excluded list entry `EXE` matches it case-insensitively. -/
theorem get_files_in_directory_case_counterexample :
    get_files_in_directory "root" [⟨"root/Song.MP3", true⟩] "MP3" [] = [] ∧
    rsToLower (get_file_extension "root/Song.MP3") = rsToLower "MP3" ∧
    get_files_in_directory "root" [⟨"root/tool.exe", true⟩] "" ["EXE"] = ["tool.exe"] ∧
    rsToLower (get_file_extension "root/tool.exe") = rsToLower "EXE" :=
  ⟨rfl, rfl, rfl, rfl⟩

/-! ## Splitting generated contents back into lines -/

/-- Data of a string fold of appends. -/
theorem foldl_append_data (l : List String) (init : String) :
    (l.foldl (fun r s => r ++ s) init).data = init.data ++ (l.map String.data).join := by
  induction l generalizing init with
  | nil => simp
  | cons x xs ih =>
    simp only [List.foldl_cons, ih, String.data_append, List.map_cons, List.join_cons]
    simp [List.append_assoc]

/-- Data of a string join. -/
theorem join_data (l : List String) :
    (String.join l).data = (l.map String.data).join := by
  unfold String.join
  rw [foldl_append_data]
  rfl

/-- The newline splitter never produces the empty segment list. -/
theorem splitOnNl_ne_nil (cs : List Char) : splitOnNl cs ≠ [] := by
  cases cs with
  | nil => simp [splitOnNl]
  | cons c rest =>
    unfold splitOnNl
    by_cases h : c = '\n'
    · rw [if_pos h]; simp
    · rw [if_neg h]
      cases splitOnNl rest <;> simp

/-- Unfolding of the newline splitter on a cons cell. -/
theorem splitOnNl_cons (c : Char) (rest : List Char) :
    splitOnNl (c :: rest) =
      if c = '\n' then [] :: splitOnNl rest
      else
        match splitOnNl rest with
        | [] => [[c]]
        | seg :: segs => (c :: seg) :: segs := rfl

/-- Splitting off a newline-free prefix terminated by a newline. -/
theorem splitOnNl_append (a r : List Char) (ha : ∀ c ∈ a, c ≠ '\n') :
    splitOnNl (a ++ '\n' :: r) = a :: splitOnNl r := by
  induction a with
  | nil =>
    rw [List.nil_append, splitOnNl_cons, if_pos rfl]
  | cons c cs ih =>
    rw [List.cons_append, splitOnNl_cons, if_neg (ha c (List.mem_cons_self c cs))]
    rw [ih (fun x hx => ha x (List.mem_cons_of_mem c hx))]

/-- Stripping the carriage return appended to any list. -/
theorem stripCr_append_cr (l : List Char) : stripCr (l ++ ['\r']) = l := by
  induction l with
  | nil => rfl
  | cons c cs ih =>
    simp only [List.cons_append]
    unfold stripCr
    rw [if_neg (by simp)]
    rw [ih]

/-- Peeling one CRLF-terminated, newline-free line off the front of a document. -/
theorem rsLines_cons_line (a rest : String) (ha : ∀ c ∈ a.data, c ≠ '\n' ∧ c ≠ '\r') :
    rsLines (a ++ "\r\n" ++ rest) = a :: rsLines rest := by
  have hdata : (a ++ "\r\n" ++ rest).data = (a.data ++ ['\r']) ++ '\n' :: rest.data := by
    simp [String.data_append, List.append_assoc]
  have hsplit : splitOnNl ((a.data ++ ['\r']) ++ '\n' :: rest.data) =
      (a.data ++ ['\r']) :: splitOnNl rest.data := by
    refine splitOnNl_append _ _ ?_
    intro c hc
    rcases List.mem_append.mp hc with h | h
    · exact (ha c h).1
    · rw [List.mem_singleton] at h
      subst h
      decide
  unfold rsLines
  rw [hdata, hsplit]
  cases hL : splitOnNl rest.data with
  | nil => exact absurd hL (splitOnNl_ne_nil _)
  | cons y ys =>
    simp only [List.getLast?_cons_cons, List.dropLast_cons₂]
    by_cases hif : (y :: ys).getLast? = some []
    · rw [if_pos hif, if_pos hif]
      simp only [List.map_cons]
      rw [stripCr_append_cr]
      congr 1
    · rw [if_neg hif, if_neg hif]
      simp only [List.map_cons]
      rw [stripCr_append_cr]
      congr 1

/-- Rebuilding the line list of a document generated as CRLF-joined lines. -/
theorem rsLines_join (L : List String)
    (h : ∀ l ∈ L, ∀ c ∈ l.data, c ≠ '\n' ∧ c ≠ '\r') :
    rsLines (String.join (L.map (fun l => l ++ "\r\n"))) = L := by
  induction L with
  | nil => rfl
  | cons a L ih =>
    have hd : (String.join ((a ++ "\r\n") :: L.map (fun l => l ++ "\r\n"))).data =
        (a ++ "\r\n" ++ String.join (L.map (fun l => l ++ "\r\n"))).data := by
      rw [join_data]
      simp only [List.map_cons, List.join_cons, String.data_append, join_data]
    have heq : String.join ((a ++ "\r\n") :: L.map (fun l => l ++ "\r\n")) =
        a ++ "\r\n" ++ String.join (L.map (fun l => l ++ "\r\n")) :=
      String.ext hd
    simp only [List.map_cons]
    rw [heq, rsLines_cons_line a _ (h a (List.mem_cons_self a L))]
    rw [ih (fun l hl => h l (List.mem_cons_of_mem a hl))]

/-! ## Whitespace splitting of generated lines -/

/-- Unfolding of the whitespace splitter on a cons cell. -/
theorem splitWsGo_cons (c : Char) (rest acc : List Char) :
    splitWsGo (c :: rest) acc =
      if rsIsWhitespace c then
        if acc.isEmpty then splitWsGo rest [] else acc.reverse :: splitWsGo rest []
      else splitWsGo rest (c :: acc) := rfl

/-- One non-whitespace character joins the token accumulator. -/
theorem splitWsGo_cons_nonws {c : Char} (h : rsIsWhitespace c = false)
    (rest acc : List Char) : splitWsGo (c :: rest) acc = splitWsGo rest (c :: acc) := by
  rw [splitWsGo_cons, h]
  simp

/-- The splitter accumulates a non-whitespace prefix. -/
theorem splitWsGo_nonws (tok : List Char)
    (htok : ∀ c ∈ tok, rsIsWhitespace c = false) :
    ∀ (rest acc : List Char),
      splitWsGo (tok ++ rest) acc = splitWsGo rest (tok.reverse ++ acc) := by
  induction tok with
  | nil => intro rest acc; rfl
  | cons c cs ih =>
    intro rest acc
    rw [List.cons_append, splitWsGo_cons_nonws (htok c (List.mem_cons_self c cs))]
    rw [ih (fun x hx => htok x (List.mem_cons_of_mem c hx)) rest (c :: acc)]
    congr 1
    simp [List.append_assoc]

/-- Splitting a line of the form `token <tab> token` yields the two tokens. -/
theorem rsSplitWhitespace_pair (name ns : String) (sep : Char)
    (hsep : rsIsWhitespace sep = true)
    (hname : name.data ≠ []) (hnamec : ∀ c ∈ name.data, rsIsWhitespace c = false)
    (hns : ns.data ≠ []) (hnsc : ∀ c ∈ ns.data, rsIsWhitespace c = false) :
    rsSplitWhitespace ⟨name.data ++ sep :: ns.data⟩ = [name, ns] := by
  unfold rsSplitWhitespace
  show (splitWsGo (name.data ++ sep :: ns.data) []).map List.asString = [name, ns]
  rw [splitWsGo_nonws name.data hnamec (sep :: ns.data) []]
  unfold splitWsGo
  rw [hsep]
  simp only [if_true]
  rw [if_neg (by simp [hname])]
  have hns2 : splitWsGo (ns.data ++ []) [] = splitWsGo [] ns.data.reverse := by
    have := splitWsGo_nonws ns.data hnsc [] []
    simpa using this
  rw [List.append_nil] at hns2
  rw [hns2]
  unfold splitWsGo
  rw [if_neg (by simp [hns])]
  simp only [List.append_nil, List.reverse_reverse, List.map_cons, List.map_nil]
  constructor

/-- A generated numeric field line splits into its identifier and its value. -/
theorem rsSplitWhitespace_field (name : String) (k : Int)
    (hname : name.data ≠ []) (hnamec : ∀ c ∈ name.data, rsIsWhitespace c = false) :
    rsSplitWhitespace ((name ++ "\t") ++ intToString k) = [name, intToString k] := by
  have hdata : ((name ++ "\t") ++ intToString k).data =
      name.data ++ '\t' :: (intToString k).data := by
    simp [String.data_append]
  have h0 : ((name ++ "\t") ++ intToString k) =
      (⟨name.data ++ '\t' :: (intToString k).data⟩ : String) :=
    String.ext hdata
  rw [h0]
  rw [rsSplitWhitespace_pair name (intToString k) '\t' rfl hname hnamec
    (intToString_ne_nil k) (intToString_no_ws k)]

/-! ## Round trip of the map script dialect -/

/-- Bind of a successful `Except` computation. -/
theorem except_bind_ok {α β : Type} (a : α) (f : α → Except String β) :
    (Except.ok a >>= f : Except String β) = f a := rfl

/-- A failed prefix test survives appending, as long as the pattern fits inside the
original string. -/
theorem rsStartsWith_append_false (pre s pat : String)
    (h : rsStartsWith pre pat = false) (hlen : pat.data.length ≤ pre.data.length) :
    rsStartsWith (pre ++ s) pat = false := by
  unfold rsStartsWith at h ⊢
  rw [String.data_append]
  by_contra hcon
  rw [Bool.not_eq_false, List.isPrefixOf_iff_prefix, List.prefix_iff_eq_take] at hcon
  rw [List.take_append_eq_append_take, Nat.sub_eq_zero_of_le hlen, List.take_zero,
    List.append_nil] at hcon
  have hpre2 : pat.data <+: pre.data := by
    rw [List.prefix_iff_eq_take]
    exact hcon
  rw [← List.isPrefixOf_iff_prefix] at hpre2
  rw [hpre2] at h
  cases h

/-- All characters of a generated numeric field line are line-material (no newline or
carriage return). -/
theorem field_line_no_nl (name : String) (k : Int)
    (hname : ∀ c ∈ name.data, c ≠ '\n' ∧ c ≠ '\r') :
    ∀ c ∈ ((name ++ "\t") ++ intToString k).data, c ≠ '\n' ∧ c ≠ '\r' := by
  intro c hc
  rw [String.data_append, String.data_append] at hc
  rcases List.mem_append.mp hc with hc | hc
  · rcases List.mem_append.mp hc with hc | hc
    · exact hname c hc
    · rw [show ("\t" : String).data = ['\t'] from rfl, List.mem_singleton] at hc
      subst hc
      exact ⟨by decide, by decide⟩
  · exact intToString_no_nl k c hc

/-- Processing a generated numeric field line at top level consumes its pending value
term. -/
theorem processMapScriptLine_field (st : MapCheckState) (name : String) (k : Int)
    (hct : st.checkingTerm = "")
    (hsw : rsStartsWith ((name ++ "\t") ++ intToString k) "//" = false)
    (hsplit : rsSplitWhitespace ((name ++ "\t") ++ intToString k) =
      [name, intToString k])
    (hmem : st.neededValueTerms.contains name = true)
    (hk : isI32 k) :
    processMapScriptLine st ((name ++ "\t") ++ intToString k) =
      .ok { st with neededValueTerms := st.neededValueTerms.filter (· != name) } := by
  have hcv : check_line_value_validity name (some (intToString k)) = .ok () := by
    rw [check_line_value_validity.eq_def]
    simp only [parseI32_intToString k hk]
  unfold processMapScriptLine
  rw [hsw]
  simp only [Bool.false_eq_true, if_false, hsplit]
  rw [if_pos hct]
  simp only [hmem, if_true]
  simp only [List.head?]
  rw [hcv]
  rfl

/-- Round trip of the map script dialect: for every `i32` parameter set, the document
written by `create_map_script_file` is accepted by `check_map_script_file`. -/
theorem map_script_round_trip (args : Arguments)
    (h1 : isI32 args.baseweight) (h2 : isI32 args.maxplayers)
    (h3 : isI32 args.minplayers) (h4 : isI32 args.resintensity)
    (h5 : isI32 args.teamthresh) :
    check_map_script_file (rsLines (create_map_script_contents args)) = .ok () := by
  have hlines : rsLines (create_map_script_contents args) =
      create_map_script_lines args := by
    unfold create_map_script_contents
    apply rsLines_join
    intro l hl
    simp only [create_map_script_lines, List.mem_cons] at hl
    rcases hl with rfl | rfl | rfl | rfl | rfl | rfl | rfl | rfl | rfl | rfl | rfl |
      rfl | rfl | rfl | rfl | rfl | rfl | rfl | rfl | rfl | rfl | rfl | rfl | rfl |
      rfl | rfl | rfl | rfl | rfl | rfl | rfl | rfl | rfl | rfl | rfl | rfl | rfl | hl
    all_goals first
      | exact absurd hl (List.not_mem_nil l)
      | decide
      | exact field_line_no_nl "BaseWeight" _ (by decide)
      | exact field_line_no_nl "MaxPlayers" _ (by decide)
      | exact field_line_no_nl "MinPlayers" _ (by decide)
      | exact field_line_no_nl "ResIntensity" _ (by decide)
      | exact field_line_no_nl "TeamThreshold" _ (by decide)
  rw [hlines]
  have hdecomp : create_map_script_lines args =
      (["// Map Script File Generated by GE:S Map Release Assistant for 5.0 - Report Any Issues to Entropy-Soldier",
        "",
        "// The game will try not to pick this map when the playercount is outside the range specified here.",
        "// The BaseWeight of the map controls how likely the map is to be chosen in random selection.",
        "// The map will not be chosen if the server playercount is below MinPlayers or above MaxPlayers",
        "// The baseweight scales with how far the playercount is from the average of MinPlayers and MaxPlayers.",
        "// because of this, maps with large ranges are not very likely to be picked at the edges of them.",
        "// ResIntensity is a measure of how much data in unique assets a map has.",
        "// It will avoid switching between maps with a combined intensity score of 10 or greater to avoid client crashes.",
        ""] : List String) ++
        (("BaseWeight" ++ "\t") ++ intToString args.baseweight) ::
        (("MaxPlayers" ++ "\t") ++ intToString args.maxplayers) ::
        (("MinPlayers" ++ "\t") ++ intToString args.minplayers) ::
        (("ResIntensity" ++ "\t") ++ intToString args.resintensity) ::
        (("TeamThreshold" ++ "\t") ++ intToString args.teamthresh) ::
        (["",
          "// Overrides the default weaponset weights if any sets are specified here.  Can be used as a blacklist.",
          "// Will only override weaponsets that are already in rotation, to prevent overriding gamemode specific lists.",
          "WeaponsetWeights",
          "\x7b",
          "\tslappers\t\t0",
          "\x7d",
          "",
          "// Weights for each gamemode if the map is switched to below the team threshold.",
          "// Overrides whatever weight is specified in default.txt, if there is one.",
          "// If a gamemode is not listed here or in default.txt it won\x27t be used.",
          "GamemodeWeights",
          "\x7b",
          "\tYOLT\t\t0",
          "\x7d",
          "",
          "// Gamemode weights used when the map is switched to while playercount is above the team threshold.",
          "TeamGamemodeWeights",
          "\x7b",
          "\tCaptureTheFlag\t\t0",
          "\x7d",
          ""] : List String) := rfl
  have hrun : runMapScriptLines (create_map_script_lines args) = .ok ⟨[], [], ""⟩ := by
    unfold runMapScriptLines
    rw [hdecomp, List.foldlM_append]
    rw [show List.foldlM processMapScriptLine
        (⟨mapNeededValueTerms, mapNeededBracketTerms, ""⟩ : MapCheckState)
        ["// Map Script File Generated by GE:S Map Release Assistant for 5.0 - Report Any Issues to Entropy-Soldier",
         "",
         "// The game will try not to pick this map when the playercount is outside the range specified here.",
         "// The BaseWeight of the map controls how likely the map is to be chosen in random selection.",
         "// The map will not be chosen if the server playercount is below MinPlayers or above MaxPlayers",
         "// The baseweight scales with how far the playercount is from the average of MinPlayers and MaxPlayers.",
         "// because of this, maps with large ranges are not very likely to be picked at the edges of them.",
         "// ResIntensity is a measure of how much data in unique assets a map has.",
         "// It will avoid switching between maps with a combined intensity score of 10 or greater to avoid client crashes.",
         ""] = .ok ⟨mapNeededValueTerms, mapNeededBracketTerms, ""⟩ from rfl]
    rw [except_bind_ok]
    rw [List.foldlM_cons, processMapScriptLine_field _ "BaseWeight" _ rfl
      (rsStartsWith_append_false "BaseWeight\t" _ "//" (by decide) (by decide))
      (rsSplitWhitespace_field "BaseWeight" _ (by decide) (by decide))
      (by decide) h1, except_bind_ok]
    rw [List.foldlM_cons, processMapScriptLine_field _ "MaxPlayers" _ rfl
      (rsStartsWith_append_false "MaxPlayers\t" _ "//" (by decide) (by decide))
      (rsSplitWhitespace_field "MaxPlayers" _ (by decide) (by decide))
      (by decide) h2, except_bind_ok]
    rw [List.foldlM_cons, processMapScriptLine_field _ "MinPlayers" _ rfl
      (rsStartsWith_append_false "MinPlayers\t" _ "//" (by decide) (by decide))
      (rsSplitWhitespace_field "MinPlayers" _ (by decide) (by decide))
      (by decide) h3, except_bind_ok]
    rw [List.foldlM_cons, processMapScriptLine_field _ "ResIntensity" _ rfl
      (rsStartsWith_append_false "ResIntensity\t" _ "//" (by decide) (by decide))
      (rsSplitWhitespace_field "ResIntensity" _ (by decide) (by decide))
      (by decide) h4, except_bind_ok]
    rw [List.foldlM_cons, processMapScriptLine_field _ "TeamThreshold" _ rfl
      (rsStartsWith_append_false "TeamThreshold\t" _ "//" (by decide) (by decide))
      (rsSplitWhitespace_field "TeamThreshold" _ (by decide) (by decide))
      (by decide) h5, except_bind_ok]
    rfl
  rw [check_map_script_file_eq hrun]
  rfl

/-! ## C3: music validation without an install sound directory -/

/-- C3 (amended).  When no install sound directory is available,
`check_music_script_file` runs only the structural check: a structural mistake is
still an error, but on structural success the validator returns immediately with the
warning-level signal, skipping both the per-entry audio-extension check and the
path-existence check. -/
theorem music_no_install_dir_struct_only (env : MusicEnv) (contents : String)
    (h : env.gesSoundDirExists = false) :
    check_music_script_file env contents =
      (if musicStructMatch contents then .ok true else .error musicFormatErrorText) := by
  unfold check_music_script_file
  rw [h]
  by_cases hs : musicStructMatch contents = true
  · rw [hs]
    simp
  · rw [Bool.not_eq_true] at hs
    rw [hs]
    simp

/-- Witness for `music_no_install_dir_struct_only` on a structurally valid document. -/
theorem music_no_install_dir_struct_only_witness :
    check_music_script_file ⟨false, []⟩
      "\"music\"\r\n\x7b\r\n\t\"file\"\t\"a.txt\"\r\n\x7d\r\n" =
      (if musicStructMatch "\"music\"\r\n\x7b\r\n\t\"file\"\t\"a.txt\"\r\n\x7d\r\n"
        then .ok true else .error musicFormatErrorText) :=
  music_no_install_dir_struct_only ⟨false, []⟩ _ rfl

/-- C3 (counterexample).  With no install sound directory, a structurally valid music
script whose single entry `a.txt` fails the audio-extension test still validates (with
the warning signal): the extension check is skipped, contradicting the claim that it
still runs. -/
theorem music_no_install_dir_counterexample :
    check_music_script_file ⟨false, []⟩
      "\"music\"\r\n\x7b\r\n\t\"file\"\t\"a.txt\"\r\n\x7d\r\n" = .ok true ∧
    musicFileCaptures "\"music\"\r\n\x7b\r\n\t\"file\"\t\"a.txt\"\r\n\x7d\r\n" =
      ["\"a.txt\""] ∧
    mp3ExtensionBadB (fixedPathOf "\"a.txt\"") = true :=
  ⟨rfl, rfl, rfl⟩

/-! ## C4: the per-entry audio-extension check -/

/-- Lowercasing a character list twice is the same as lowercasing it once. -/
theorem map_lowerChar_idem (l : List Char) :
    (l.map lowerChar).map lowerChar = l.map lowerChar := by
  rw [List.map_map]
  exact List.map_congr_left (fun c _ => lowerChar_fix c)

/-- Data view of `rsToLower`. -/
theorem rsToLower_data (s : String) : (rsToLower s).data = s.data.map lowerChar := rfl

/-- Data view of `lastN`. -/
theorem lastN_data (s : String) (n : Nat) :
    (lastN s n).data = s.data.drop (s.data.length - n) := rfl

/-- The last characters of an already-lowercased string are unchanged by another
lowercasing. -/
theorem rsToLower_lastN_fixed (s : String) (n : Nat) :
    rsToLower (lastN (rsToLower s) n) = lastN (rsToLower s) n := by
  apply String.ext
  rw [rsToLower_data, lastN_data, rsToLower_data]
  rw [← List.map_drop]
  exact map_lowerChar_idem _

/-- Boolean suffix test in terms of list suffixes. -/
theorem rsEndsWith_iff (s suf : String) :
    rsEndsWith s suf = true ↔ suf.data <:+ s.data := by
  unfold rsEndsWith
  rw [List.suffix_iff_eq_drop, Bool.and_eq_true]
  constructor
  · intro h
    exact (of_decide_eq_true h.2).symm
  · intro h
    have hlen : suf.data.length ≤ s.data.length := by
      conv_lhs => rw [h]
      simp [List.length_drop]
    exact ⟨decide_eq_true hlen, decide_eq_true h.symm⟩

/-- A string ending in `.mp3` also ends in `mp3` and has at least four characters. -/
theorem endsWith_dotmp3_facts (f : String) (h : rsEndsWith f ".mp3" = true) :
    rsEndsWith f "mp3" = true ∧ 4 ≤ f.data.length := by
  rw [rsEndsWith_iff] at h
  obtain ⟨t, ht⟩ := h
  have hl := congrArg List.length ht
  rw [List.length_append] at hl
  have h4 : (".mp3" : String).data.length = 4 := rfl
  rw [h4] at hl
  constructor
  · rw [rsEndsWith_iff]
    refine List.IsSuffix.trans ⟨['.'], rfl⟩ ?_
    exact ⟨t, ht⟩
  · omega

/-- When the normalized path does not end in `mp3`, the music extension test fires
exactly on paths longer than three characters. -/
theorem mp3ExtensionBadB_of_not_mp3 (v : String)
    (hbad : rsEndsWith (fixedPathOf v) "mp3" = false)
    (hlen : 3 < (fixedPathOf v).data.length) :
    mp3ExtensionBadB (fixedPathOf v) = true := by
  unfold mp3ExtensionBadB
  rw [Bool.and_eq_true]
  refine ⟨decide_eq_true hlen, ?_⟩
  have hfix : rsToLower (lastN (fixedPathOf v) 3) = lastN (fixedPathOf v) 3 := by
    unfold fixedPathOf
    exact rsToLower_lastN_fixed _ 3
  rw [hfix, bne_iff_ne]
  intro hcon
  have hdata : (fixedPathOf v).data.drop ((fixedPathOf v).data.length - 3) =
      ("mp3" : String).data := by
    rw [← lastN_data, hcon]
  have hends : rsEndsWith (fixedPathOf v) "mp3" = true := by
    unfold rsEndsWith
    rw [Bool.and_eq_true]
    have h3 : ("mp3" : String).data.length = 3 := rfl
    refine ⟨decide_eq_true (by rw [h3]; omega), decide_eq_true (by rw [h3]; exact hdata)⟩
  rw [hends] at hbad
  cases hbad

/-- The music entry loop steps over one entry that satisfies both per-entry checks. -/
theorem musicEntriesLoop_cons_pass (mp3Files : List String) (u : String)
    (caps : List String)
    (h1 : mp3ExtensionBadB (fixedPathOf u) = false)
    (h2 : mp3Files.contains (fixedPathOf u) = true) :
    musicEntriesLoop mp3Files (u :: caps) = musicEntriesLoop mp3Files caps := by
  conv_lhs => unfold musicEntriesLoop
  simp only [h1, Bool.false_eq_true, if_false, h2, Bool.not_true]

/-- The music entry loop passes over a prefix of entries that satisfy both per-entry
checks. -/
theorem musicEntriesLoop_skip (mp3Files : List String) (pre rest : List String)
    (hpre : ∀ u ∈ pre, mp3ExtensionBadB (fixedPathOf u) = false ∧
      mp3Files.contains (fixedPathOf u) = true) :
    musicEntriesLoop mp3Files (pre ++ rest) = musicEntriesLoop mp3Files rest := by
  induction pre with
  | nil => rfl
  | cons u us ih =>
    obtain ⟨h1, h2⟩ := hpre u (List.mem_cons_self u us)
    rw [List.cons_append, musicEntriesLoop_cons_pass mp3Files u _ h1 h2]
    exact ih (fun x hx => hpre x (List.mem_cons_of_mem u hx))

/-- C4.  With the install sound directory available and all earlier entries passing
both per-entry checks, a `file` entry whose normalized value does not end in `mp3`
(case-insensitively) causes `check_music_script_file` to reject the document with an
error naming that normalized path — via the extension message for values longer than
three characters, and via the existence message for shorter values (which can never
occur in the `.mp3`-suffixed snapshot). -/
theorem music_bad_extension_rejected (env : MusicEnv) (contents : String)
    (pre : List String) (v : String) (post : List String)
    (hdir : env.gesSoundDirExists = true)
    (hstruct : musicStructMatch contents = true)
    (hcaps : musicFileCaptures contents = pre ++ v :: post)
    (hmp3 : ∀ f ∈ env.mp3Files, rsEndsWith f ".mp3" = true)
    (hpre : ∀ u ∈ pre, mp3ExtensionBadB (fixedPathOf u) = false ∧
      env.mp3Files.contains (fixedPathOf u) = true)
    (hbad : rsEndsWith (fixedPathOf v) "mp3" = false) :
    ∃ e, check_music_script_file env contents = .error e ∧
      strContains e (fixedPathOf v) = true := by
  have hloop : ∃ e, musicEntriesLoop env.mp3Files (pre ++ v :: post) = .error e ∧
      strContains e (fixedPathOf v) = true := by
    rw [musicEntriesLoop_skip env.mp3Files pre _ hpre]
    by_cases hl : 3 < (fixedPathOf v).data.length
    · have hext := mp3ExtensionBadB_of_not_mp3 v hbad hl
      refine ⟨"File " ++ fixedPathOf v ++
        " is not an MP3 file!  Please convert it to mp3 format.", ?_, ?_⟩
      · unfold musicEntriesLoop
        simp only [hext, if_true]
      · exact strContains_of_decomp "File ".data
          " is not an MP3 file!  Please convert it to mp3 format.".data
          (by simp [String.data_append])
    · have hnot : env.mp3Files.contains (fixedPathOf v) = false := by
        by_contra hc
        rw [Bool.not_eq_false] at hc
        have hmem : fixedPathOf v ∈ env.mp3Files := List.mem_of_elem_eq_true hc
        obtain ⟨h1, _⟩ := endsWith_dotmp3_facts _ (hmp3 _ hmem)
        rw [h1] at hbad
        cases hbad
      have hext : mp3ExtensionBadB (fixedPathOf v) = false := by
        unfold mp3ExtensionBadB
        rw [decide_eq_false (by omega)]
        rfl
      refine ⟨"Failed to locate music file " ++ fixedPathOf v ++
        " in either the GE:S or local directory tree\nEnsure that the file path is valid and that the file exists.", ?_, ?_⟩
      · unfold musicEntriesLoop
        simp only [hext, Bool.false_eq_true, if_false, hnot, Bool.not_false, if_true]
      · exact strContains_of_decomp "Failed to locate music file ".data
          " in either the GE:S or local directory tree\nEnsure that the file path is valid and that the file exists.".data
          (by simp [String.data_append])
  obtain ⟨e, he, hne⟩ := hloop
  refine ⟨e, ?_, hne⟩
  unfold check_music_script_file
  rw [hstruct, hdir]
  simp only [Bool.not_true, Bool.false_eq_true, if_false]
  rw [hcaps, he]

/-- Witness for `music_bad_extension_rejected`: after one passing entry, the entry
`bad.txt` is rejected with an error naming `bad.txt`. -/
theorem music_bad_extension_rejected_witness :
    ∃ e, check_music_script_file ⟨true, ["good.mp3"]⟩
      "\"music\"\r\n\x7b\r\n\t\"file\"\t\"good.mp3\"\r\n\t\"file\"\t\"bad.txt\"\r\n\x7d\r\n" =
      .error e ∧ strContains e (fixedPathOf "\"bad.txt\"") = true :=
  music_bad_extension_rejected ⟨true, ["good.mp3"]⟩ _ ["\"good.mp3\""] "\"bad.txt\"" []
    rfl rfl rfl (by decide) (by decide) (by decide)

/-- The empty pattern occurs in every string. -/
theorem containsSeq_nil_pat (l : List Char) : containsSeq [] l = true := by
  cases l with
  | nil => rfl
  | cons c rest => rw [containsSeq.eq_def]; simp [List.isPrefixOf]

/-- An occurrence survives appending on the right. -/
theorem containsSeq_append_right (pat s t : List Char)
    (h : containsSeq pat s = true) : containsSeq pat (s ++ t) = true := by
  induction s with
  | nil =>
    have hp : pat = [] := by
      rw [containsSeq.eq_def] at h
      simpa using h
    subst hp
    exact containsSeq_nil_pat t
  | cons c cs ih =>
    rw [containsSeq.eq_def] at h
    rw [List.cons_append, containsSeq.eq_def]
    simp only [Bool.or_eq_true] at h ⊢
    rcases h with h | h
    · left
      rw [List.isPrefixOf_iff_prefix] at h ⊢
      obtain ⟨rest, hrest⟩ := h
      exact ⟨rest ++ t, by rw [← List.append_assoc, hrest]; rfl⟩
    · right
      exact ih h

/-! ## C6: reslist reconciliation and fullcheck leniency -/

/-- C6.  For a structurally valid reslist whose declared entries all pass the
per-entry checks, validation outside whole-installation mode fails whenever some
snapshot file is undeclared, with a message naming every undeclared file; in
whole-installation mode the same document always succeeds. -/
theorem reslist_undeclared_enumerated (fileList : List String) (contents : String)
    (checked : List String)
    (hstruct : reslistStructMatch contents = true)
    (hloop : reslistEntriesLoop fileList (reslistFileCaptures contents) [] =
      .ok checked) :
    (fileList.filter (fun f => !(checked.contains f)) ≠ [] →
      ∃ e, check_reslist ⟨fileList, false⟩ contents = .error e ∧
        ∀ f ∈ fileList, checked.contains f = false → strContains e f = true) ∧
    check_reslist ⟨fileList, true⟩ contents = .ok () := by
  constructor
  · intro hmiss
    refine ⟨((fileList.filter (fun f => !(checked.contains f))).foldl
      (fun acc file => acc ++ file ++ " ") "Resource files ") ++
      " aren\x27t included in the reslist!  Be sure to include entries for them or remove them from the destribution folder.", ?_, ?_⟩
    · unfold check_reslist
      rw [hstruct]
      simp only [Bool.not_true, Bool.false_eq_true, if_false]
      rw [hloop]
      simp only [Bool.false_eq_true, if_false]
      rw [if_pos hmiss]
    · intro f hf hnc
      have hmem : f ∈ fileList.filter (fun x => !(checked.contains x)) := by
        rw [List.mem_filter]
        exact ⟨hf, by rw [hnc]; rfl⟩
      have hin := foldl_names_mem (fileList.filter (fun x => !(checked.contains x)))
        "Resource files " f hmem
      unfold strContains at hin ⊢
      rw [String.data_append]
      exact containsSeq_append_right _ _ _ hin
  · unfold check_reslist
    rw [hstruct]
    simp only [Bool.not_true, Bool.false_eq_true, if_false]
    rw [hloop]
    rfl

/-- Witness for `reslist_undeclared_enumerated`: a release root with files `a.txt`,
`b.txt`, `c.txt` and a manifest declaring only the first two is rejected naming
`c.txt` outside fullcheck mode and accepted in fullcheck mode. -/
theorem reslist_undeclared_enumerated_witness :
    (∃ e, check_reslist ⟨["a.txt", "b.txt", "c.txt"], false⟩
        (reslistContents ["a.txt", "b.txt"]) = .error e ∧
      ∀ f ∈ (["a.txt", "b.txt", "c.txt"] : List String),
        (["a.txt", "b.txt"] : List String).contains f = false →
          strContains e f = true) ∧
    check_reslist ⟨["a.txt", "b.txt", "c.txt"], true⟩
      (reslistContents ["a.txt", "b.txt"]) = .ok () := by
  have h := reslist_undeclared_enumerated ["a.txt", "b.txt", "c.txt"]
    (reslistContents ["a.txt", "b.txt"]) ["a.txt", "b.txt"] rfl rfl
  exact ⟨h.1 (by decide), h.2⟩

/-! ## Acceptance lemmas for the regex recognizers -/

/-- Sequencing accepts through a chosen intermediate remainder. -/
theorem mem_pseq {p q : P} {s r u : List Char} (hp : r ∈ p s) (hq : u ∈ q r) :
    u ∈ pseq p q s := by
  unfold pseq
  exact List.mem_bind.mpr ⟨r, hp, hq⟩

/-- Alternation accepts through its left branch. -/
theorem mem_palt_left {p q : P} {cs out : List Char} (h : out ∈ p cs) :
    out ∈ palt p q cs := by
  unfold palt
  exact List.mem_append.mpr (Or.inl h)

/-- Alternation accepts through its right branch. -/
theorem mem_palt_right {p q : P} {cs out : List Char} (h : out ∈ q cs) :
    out ∈ palt p q cs := by
  unfold palt
  exact List.mem_append.mpr (Or.inr h)

/-- A literal accepts its own text. -/
theorem mem_plit (lit rest : List Char) : rest ∈ plit lit (lit ++ rest) := by
  unfold plit
  rw [if_pos (isPrefixOf_append_self lit rest)]
  rw [List.mem_singleton, List.drop_left]

/-- Zero whitespace consumption is always offered. -/
theorem wsSplits_self (cs : List Char) : cs ∈ wsSplits cs := by
  cases cs with
  | nil => simp [wsSplits]
  | cons c rest =>
    unfold wsSplits
    by_cases h : rsIsWhitespace c = true
    · rw [if_pos h]
      exact List.mem_cons_self _ _
    · rw [Bool.not_eq_true] at h
      rw [h]
      simp

/-- Any whitespace run can be consumed by `\s*`. -/
theorem wsSplits_consume (run X : List Char) (h : ∀ c ∈ run, rsIsWhitespace c = true) :
    X ∈ wsSplits (run ++ X) := by
  induction run with
  | nil => exact wsSplits_self X
  | cons c cs ih =>
    rw [List.cons_append]
    unfold wsSplits
    rw [h c (List.mem_cons_self c cs)]
    simp only [if_true]
    exact List.mem_cons_of_mem _ (ih (fun x hx => h x (List.mem_cons_of_mem c hx)))

/-- The regex `\s+` accepts one whitespace character and then any further run. -/
theorem mem_pws1 {c : Char} {rest out : List Char} (hc : rsIsWhitespace c = true)
    (hout : out ∈ wsSplits rest) : out ∈ pws1 (c :: rest) := by
  show out ∈ (if rsIsWhitespace c = true then wsSplits rest else [])
  rw [hc]
  exact hout

/-- A run of characters satisfying the predicate, stopped by a failing character. -/
theorem takeWhile_stop {p : Char → Bool} (l : List Char) {x : Char} (r : List Char)
    (hl : ∀ c ∈ l, p c = true) (hx : p x = false) :
    (l ++ x :: r).takeWhile p = l := by
  induction l with
  | nil =>
    rw [List.nil_append, List.takeWhile_cons, hx]
    simp
  | cons c cs ih =>
    rw [List.cons_append, List.takeWhile_cons, hl c (List.mem_cons_self c cs)]
    rw [ih (fun y hy => hl y (List.mem_cons_of_mem c hy))]
    simp

/-- A quoted value accepts its own text. -/
theorem mem_pquoted (body rest : List Char) (hb : ∀ c ∈ body, quotedBodyChar c = true) :
    rest ∈ pquoted ('"' :: body ++ '"' :: rest) := by
  show rest ∈
    (match List.drop (List.takeWhile quotedBodyChar (body ++ '"' :: rest)).length
        (body ++ '"' :: rest) with
     | '"' :: rest2 => [rest2]
     | _ => [])
  rw [takeWhile_stop body rest hb (by rfl), List.drop_left]
  exact List.mem_singleton.mpr rfl

/-- The star offers zero repetitions whenever it has fuel. -/
theorem pstarF_self (fuel : Nat) (p : P) (cs : List Char) (h : 1 ≤ fuel) :
    cs ∈ pstarF fuel p cs := by
  obtain ⟨g, rfl⟩ : ∃ g, fuel = g + 1 := ⟨fuel - 1, by omega⟩
  unfold pstarF
  exact List.mem_cons_self _ _

/-- Star results are monotone in fuel. -/
theorem pstarF_mono (f : Nat) : ∀ (g : Nat), f ≤ g → ∀ (p : P) (cs out : List Char),
    out ∈ pstarF f p cs → out ∈ pstarF g p cs := by
  induction f with
  | zero =>
    intro g _ p cs out h
    cases h
  | succ f ih =>
    intro g hg p cs out h
    obtain ⟨g', rfl⟩ : ∃ g', g = g' + 1 := ⟨g - 1, by omega⟩
    unfold pstarF at h ⊢
    rcases List.mem_cons.mp h with h | h
    · exact h ▸ List.mem_cons_self _ _
    · refine List.mem_cons_of_mem _ ?_
      obtain ⟨r, hr, hout⟩ := List.mem_bind.mp h
      exact List.mem_bind.mpr ⟨r, hr, ih g' (by omega) p r out hout⟩

/-- Zero repetitions of the star. -/
theorem pstar_self (p : P) (cs : List Char) : cs ∈ pstar p cs :=
  pstarF_self _ p cs (by omega)

/-- One consuming repetition followed by more star. -/
theorem pstar_step {p : P} {cs r out : List Char} (hr : r ∈ p cs)
    (hlen : r.length < cs.length) (hout : out ∈ pstar p r) : out ∈ pstar p cs := by
  unfold pstar at hout ⊢
  obtain ⟨g, hg⟩ : ∃ g, cs.length + 1 = g + 1 := ⟨cs.length, rfl⟩
  rw [hg]
  unfold pstarF
  refine List.mem_cons_of_mem _ ?_
  refine List.mem_bind.mpr ⟨r, List.mem_filter.mpr ⟨hr, decide_eq_true hlen⟩, ?_⟩
  have : g = cs.length := by omega
  subst this
  exact pstarF_mono (r.length + 1) cs.length (by omega) p r out hout

/-- One generated music entry (with any preceding whitespace run) is accepted by the
entry recognizer, consuming through its terminating line break. -/
theorem musicEntry_accept (wsRun : List Char) (p : String) (rest : List Char)
    (hws : ∀ c ∈ wsRun, rsIsWhitespace c = true)
    (hp : ∀ c ∈ p.data, quotedBodyChar c = true) :
    rest ∈ musicEntryP (wsRun ++ musicEntryData p ++ rest) := by
  unfold musicEntryP
  have hshape : wsRun ++ musicEntryData p ++ rest =
      (wsRun ++ ['\t']) ++ (['"', 'f', 'i', 'l', 'e', '"'] ++
        ('\t' :: ('"' :: p.data ++ '"' :: ('\r' :: '\n' :: rest)))) := by
    unfold musicEntryData musicCoreData
    simp [List.append_assoc]
  rw [hshape]
  refine mem_pseq (wsSplits_consume (wsRun ++ ['\t']) _
    (by
      intro c hc
      rcases List.mem_append.mp hc with h | h
      · exact hws c h
      · rw [List.mem_singleton] at h
        subst h
        rfl)) ?_
  refine mem_pseq (q := pseq pws1 (pseq pvalue pws0)) (mem_palt_left (mem_plit _ _)) ?_
  refine mem_pseq (mem_pws1 rfl (wsSplits_self _)) ?_
  refine mem_pseq (q := pws0) (mem_palt_left (mem_pquoted p.data ('\r' :: '\n' :: rest) hp)) ?_
  exact wsSplits_consume ['\r', '\n'] rest (by decide)

/-- The music item star accepts any run of generated entries. -/
theorem music_star_accept (ps : List String) (T : List Char)
    (hps : ∀ p ∈ ps, ∀ c ∈ p.data, quotedBodyChar c = true) :
    T ∈ pstar musicItemP (List.flatten (ps.map musicEntryData) ++ T) := by
  induction ps with
  | nil =>
    simp only [List.map_nil, List.flatten_nil, List.nil_append]
    exact pstar_self _ _
  | cons p us ih =>
    simp only [List.map_cons, List.flatten_cons, List.append_assoc]
    have hr : (List.flatten (us.map musicEntryData) ++ T) ∈
        musicItemP (musicEntryData p ++ (List.flatten (us.map musicEntryData) ++ T)) := by
      refine mem_palt_left ?_
      have := musicEntry_accept [] p (List.flatten (us.map musicEntryData) ++ T)
        (by intro c hc; cases hc) (hps p (List.mem_cons_self p us))
      simpa using this
    refine pstar_step hr ?_ (ih (fun x hx c hc => hps x (List.mem_cons_of_mem p hx) c hc))
    unfold musicEntryData
    simp only [List.length_append, List.length_cons]
    omega

/-- Character data of a generated music script. -/
theorem create_music_data (names : List String) :
    (create_music_script_contents names).data =
      '"' :: 'm' :: 'u' :: 's' :: 'i' :: 'c' :: '"' :: '\r' :: '\n' :: '\x7b' ::
        '\r' :: '\n' ::
        (List.flatten ((musicEmitted names).map musicEntryData) ++
          ['\x7d', '\r', '\n']) := by
  unfold create_music_script_contents
  rw [String.data_append, String.data_append, join_data, List.map_map]
  have hmap : (musicEmitted names).map (String.data ∘ fun f =>
      "\t\"file\"\t\"" ++ f ++ "\"\r\n") = (musicEmitted names).map musicEntryData := by
    refine List.map_congr_left (fun f _ => ?_)
    show ("\t\"file\"\t\"" ++ f ++ "\"\r\n").data = musicEntryData f
    rw [String.data_append, String.data_append]
    unfold musicEntryData musicCoreData
    simp
  rw [hmap]
  simp [List.append_assoc]

/-- A generated music script matches the music structure regex. -/
theorem musicStructMatch_generated (names : List String)
    (h : ∀ p ∈ musicEmitted names, ∀ c ∈ p.data, quotedBodyChar c = true) :
    musicStructMatch (create_music_script_contents names) = true := by
  unfold musicStructMatch
  rw [List.any_eq_true]
  refine ⟨[], ?_, rfl⟩
  rw [create_music_data]
  unfold musicDocP
  refine mem_pseq (wsSplits_self _) ?_
  refine mem_pseq (mem_palt_left (mem_plit ['"', 'm', 'u', 's', 'i', 'c', '"']
    ('\r' :: '\n' :: '\x7b' :: '\r' :: '\n' ::
      (List.flatten ((musicEmitted names).map musicEntryData) ++
        ['\x7d', '\r', '\n'])))) ?_
  refine mem_pseq (wsSplits_consume ['\r', '\n'] _ (by decide)) ?_
  refine mem_pseq (mem_plit ['\x7b'] ('\r' :: '\n' ::
    (List.flatten ((musicEmitted names).map musicEntryData) ++
      ['\x7d', '\r', '\n']))) ?_
  refine mem_pseq (wsSplits_consume ['\r', '\n'] _ (by decide)) ?_
  refine mem_pseq (music_star_accept (musicEmitted names) ['\x7d', '\r', '\n'] h) ?_
  refine mem_pseq (mem_plit ['\x7d'] ['\r', '\n']) ?_
  exact wsSplits_consume ['\r', '\n'] [] (by decide)

/-- One generated reslist entry (with any preceding whitespace run) is accepted by
the entry recognizer, consuming through its terminating line break. -/
theorem reslistEntry_accept (wsRun : List Char) (p : String) (rest : List Char)
    (hws : ∀ c ∈ wsRun, rsIsWhitespace c = true)
    (hp : ∀ c ∈ p.data, quotedBodyChar c = true) :
    rest ∈ reslistEntryP (wsRun ++ reslistEntryData p ++ rest) := by
  unfold reslistEntryP
  have hshape : wsRun ++ reslistEntryData p ++ rest =
      (wsRun ++ ['\t']) ++ ('"' :: p.data ++ '"' ::
        ('\t' :: (['"', 'f', 'i', 'l', 'e', '"'] ++ ('\r' :: '\n' :: rest)))) := by
    unfold reslistEntryData reslistCoreData
    simp [List.append_assoc]
  rw [hshape]
  refine mem_pseq (wsSplits_consume (wsRun ++ ['\t']) _
    (by
      intro c hc
      rcases List.mem_append.mp hc with h | h
      · exact hws c h
      · rw [List.mem_singleton] at h
        subst h
        rfl)) ?_
  refine mem_pseq (q := pseq pws1 (pseq (pkw "file") pws0))
    (mem_palt_left (mem_pquoted p.data _ hp)) ?_
  refine mem_pseq (mem_pws1 rfl (wsSplits_self _)) ?_
  refine mem_pseq (q := pws0) (mem_palt_left (mem_plit _ _)) ?_
  exact wsSplits_consume ['\r', '\n'] rest (by decide)

/-- The reslist entry star accepts any run of generated entries. -/
theorem reslist_star_accept (ps : List String) (T : List Char)
    (hps : ∀ p ∈ ps, ∀ c ∈ p.data, quotedBodyChar c = true) :
    T ∈ pstar reslistEntryP (List.flatten (ps.map reslistEntryData) ++ T) := by
  induction ps with
  | nil =>
    simp only [List.map_nil, List.flatten_nil, List.nil_append]
    exact pstar_self _ _
  | cons p us ih =>
    simp only [List.map_cons, List.flatten_cons, List.append_assoc]
    have hr : (List.flatten (us.map reslistEntryData) ++ T) ∈
        reslistEntryP (reslistEntryData p ++
          (List.flatten (us.map reslistEntryData) ++ T)) := by
      have := reslistEntry_accept [] p (List.flatten (us.map reslistEntryData) ++ T)
        (by intro c hc; cases hc) (hps p (List.mem_cons_self p us))
      simpa using this
    refine pstar_step hr ?_ (ih (fun x hx c hc => hps x (List.mem_cons_of_mem p hx) c hc))
    unfold reslistEntryData
    simp only [List.length_append, List.length_cons]
    omega

/-- Character data of a generated reslist. -/
theorem reslistContents_data (fl : List String) :
    (reslistContents fl).data =
      '"' :: 'r' :: 'e' :: 's' :: 'o' :: 'u' :: 'r' :: 'c' :: 'e' :: 's' :: '"' ::
        '\r' :: '\n' :: '\x7b' :: '\r' :: '\n' ::
        (List.flatten (fl.map reslistEntryData) ++ ['\x7d', '\r', '\n']) := by
  unfold reslistContents
  rw [String.data_append, String.data_append, join_data, List.map_map]
  have hmap : fl.map (String.data ∘ fun file => "\t\"" ++ file ++ "\"\t\"file\"\r\n") =
      fl.map reslistEntryData := by
    refine List.map_congr_left (fun f _ => ?_)
    show ("\t\"" ++ f ++ "\"\t\"file\"\r\n").data = reslistEntryData f
    rw [String.data_append, String.data_append]
    unfold reslistEntryData reslistCoreData
    simp
  rw [hmap]
  simp [List.append_assoc]

/-- A generated non-empty reslist matches the reslist structure regex. -/
theorem reslistStructMatch_generated (fl : List String) (hne : fl ≠ [])
    (h : ∀ p ∈ fl, ∀ c ∈ p.data, quotedBodyChar c = true) :
    reslistStructMatch (reslistContents fl) = true := by
  obtain ⟨f, fs, rfl⟩ : ∃ f fs, fl = f :: fs := by
    cases fl with
    | nil => exact absurd rfl hne
    | cons f fs => exact ⟨f, fs, rfl⟩
  unfold reslistStructMatch
  rw [List.any_eq_true]
  refine ⟨[], ?_, rfl⟩
  rw [reslistContents_data]
  unfold reslistDocP
  refine mem_pseq (wsSplits_self _) ?_
  refine mem_pseq (q := pseq pws0 (pseq (plit ['\x7b'])
    (pseq (pplus reslistEntryP) (pseq (plit ['\x7d']) pws0))))
    (mem_palt_right (mem_palt_left (mem_plit
      ['"', 'r', 'e', 's', 'o', 'u', 'r', 'c', 'e', 's', '"'] _))) ?_
  refine mem_pseq (wsSplits_consume ['\r', '\n'] _ (by decide)) ?_
  refine mem_pseq (mem_plit ['\x7b'] _) ?_
  unfold pplus
  refine mem_pseq (r := ['\x7d', '\r', '\n'])
    (mem_pseq (r := List.flatten (fs.map reslistEntryData) ++ ['\x7d', '\r', '\n'])
      ?_ ?_) ?_
  · have hg : ('\x0d' :: '\n' :: ((List.map reslistEntryData (f :: fs)).flatten ++
        ['\x7d', '\r', '\n']))
        = ['\r', '\n'] ++ reslistEntryData f ++
          ((List.map reslistEntryData fs).flatten ++ ['\x7d', '\r', '\n']) := by
      simp [List.append_assoc]
    rw [hg]
    exact reslistEntry_accept ['\r', '\n'] f _ (by decide)
      (h f (List.mem_cons_self f fs))
  · exact reslist_star_accept fs ['\x7d', '\r', '\n']
      (fun x hx c hc => h x (List.mem_cons_of_mem f hx) c hc)
  · refine mem_pseq (mem_plit ['\x7d'] ['\r', '\n']) ?_
    exact wsSplits_consume ['\r', '\n'] [] (by decide)

/-! ## Computing the captures scan on generated documents -/

/-- The scan yields nothing on an empty input, whatever the fuel. -/
theorem musicCapturesGo_nil (g : Nat) : musicCapturesGo g [] = [] := by
  cases g <;> rfl

/-- The reslist scan yields nothing on an empty input, whatever the fuel. -/
theorem reslistCapturesGo_nil (g : Nat) : reslistCapturesGo g [] = [] := by
  cases g <;> rfl

/-- A non-matching position advances the music scan by one character. -/
theorem musicCapturesGo_none (f : Nat) (c : Char) (rest : List Char)
    (h : musicEntryAt (c :: rest) = none) :
    musicCapturesGo (f + 1) (c :: rest) = musicCapturesGo f rest := by
  show (match musicEntryAt (c :: rest) with
    | some (cap, rem) => cap.asString :: musicCapturesGo f rem
    | none => musicCapturesGo f rest) = musicCapturesGo f rest
  rw [h]

/-- A matching position emits its capture and resumes after the match. -/
theorem musicCapturesGo_some (f : Nat) (cs cap rem : List Char) (hne : cs ≠ [])
    (h : musicEntryAt cs = some (cap, rem)) :
    musicCapturesGo (f + 1) cs = cap.asString :: musicCapturesGo f rem := by
  cases cs with
  | nil => exact absurd rfl hne
  | cons c rest =>
    show (match musicEntryAt (c :: rest) with
      | some (cap, rem) => cap.asString :: musicCapturesGo f rem
      | none => musicCapturesGo f rest) = cap.asString :: musicCapturesGo f rem
    rw [h]

/-- A non-matching position advances the reslist scan by one character. -/
theorem reslistCapturesGo_none (f : Nat) (c : Char) (rest : List Char)
    (h : reslistEntryAt (c :: rest) = none) :
    reslistCapturesGo (f + 1) (c :: rest) = reslistCapturesGo f rest := by
  show (match reslistEntryAt (c :: rest) with
    | some (cap, rem) => cap.asString :: reslistCapturesGo f rem
    | none => reslistCapturesGo f rest) = reslistCapturesGo f rest
  rw [h]

/-- A matching position emits its capture and resumes after the match. -/
theorem reslistCapturesGo_some (f : Nat) (cs cap rem : List Char) (hne : cs ≠ [])
    (h : reslistEntryAt cs = some (cap, rem)) :
    reslistCapturesGo (f + 1) cs = cap.asString :: reslistCapturesGo f rem := by
  cases cs with
  | nil => exact absurd rfl hne
  | cons c rest =>
    show (match reslistEntryAt (c :: rest) with
      | some (cap, rem) => cap.asString :: reslistCapturesGo f rem
      | none => reslistCapturesGo f rest) = cap.asString :: reslistCapturesGo f rem
    rw [h]

/-- Dropping whitespace skips over an all-whitespace prefix. -/
theorem dropWhile_ws_append (w ys : List Char) (hw : ∀ c ∈ w, rsIsWhitespace c = true) :
    (w ++ ys).dropWhile rsIsWhitespace = ys.dropWhile rsIsWhitespace := by
  induction w with
  | nil => rfl
  | cons c w' ih =>
    rw [List.cons_append, List.dropWhile_cons, hw c (List.mem_cons_self c w'), if_pos rfl]
    exact ih fun x hx => hw x (List.mem_cons_of_mem c hx)

/-- `dropWhile` stops at a head that fails the test. -/
theorem dropWhile_cons_neg (p : Char → Bool) (c : Char) (l : List Char) (h : p c = false) :
    (c :: l).dropWhile p = c :: l := by
  rw [List.dropWhile_cons, h]
  simp

/-- The quoted `file` keyword matches itself at the head of any input. -/
theorem matchKw_file_quoted (ys : List Char) :
    matchKw "file" ('"' :: 'f' :: 'i' :: 'l' :: 'e' :: '"' :: ys) = some ys := by
  unfold matchKw
  simp [List.isPrefixOf]

/-- A quoted value whose body is quote-free matches, capturing quotes included. -/
theorem matchValue_quoted (b ys : List Char) (hb : ∀ c ∈ b, quotedBodyChar c = true) :
    matchValue ('"' :: (b ++ '"' :: ys)) = some ('"' :: b ++ ['"'], ys) := by
  have hbody : (b ++ '"' :: ys).takeWhile quotedBodyChar = b :=
    takeWhile_stop b ys hb (by decide)
  show (match (b ++ '"' :: ys).drop
      ((b ++ '"' :: ys).takeWhile quotedBodyChar).length with
    | '"' :: rest2 =>
      some ('"' :: ((b ++ '"' :: ys).takeWhile quotedBodyChar) ++ ['"'], rest2)
    | _ => none) = some ('"' :: b ++ ['"'], ys)
  rw [hbody, List.drop_left]
  rfl

/-- At a position holding a generated music entry (after any run of whitespace) the
music entry matcher fires, capturing the quoted path and resuming after the line
break. -/
theorem musicEntryAt_core (w : List Char) (p : String) (X : List Char)
    (hw : ∀ c ∈ w, rsIsWhitespace c = true)
    (hp : ∀ c ∈ p.data, quotedBodyChar c = true) :
    musicEntryAt (w ++ (musicCoreData p ++ X)) =
      some ('"' :: p.data ++ ['"'], X.dropWhile rsIsWhitespace) := by
  have h1 : (w ++ (musicCoreData p ++ X)).dropWhile rsIsWhitespace
      = musicCoreData p ++ X := by
    rw [dropWhile_ws_append w _ hw]
    unfold musicCoreData
    exact dropWhile_cons_neg _ _ _ (by decide)
  have h2 : musicCoreData p ++ X =
      '"' :: 'f' :: 'i' :: 'l' :: 'e' :: '"' ::
        ('\t' :: '"' :: ((p.data ++ ['"', '\r', '\n']) ++ X)) := rfl
  unfold musicEntryAt
  rw [h1, h2, matchKw_file_quoted]
  show (match matchValue ('"' :: ((p.data ++ ['"', '\r', '\n']) ++ X)) with
    | some (cap, cs4) => some (cap, cs4.dropWhile rsIsWhitespace)
    | none => none) = some ('"' :: p.data ++ ['"'], X.dropWhile rsIsWhitespace)
  rw [show (p.data ++ ['"', '\r', '\n']) ++ X = p.data ++ ('"' :: '\r' :: '\n' :: X) by
    simp]
  rw [matchValue_quoted p.data _ hp]
  rfl

/-- At a position holding a generated reslist entry (after any run of whitespace) the
reslist entry matcher fires, capturing the quoted path and resuming after the line
break. -/
theorem reslistEntryAt_core (w : List Char) (p : String) (X : List Char)
    (hw : ∀ c ∈ w, rsIsWhitespace c = true)
    (hp : ∀ c ∈ p.data, quotedBodyChar c = true) :
    reslistEntryAt (w ++ (reslistCoreData p ++ X)) =
      some ('"' :: p.data ++ ['"'], X.dropWhile rsIsWhitespace) := by
  have h1 : (w ++ (reslistCoreData p ++ X)).dropWhile rsIsWhitespace
      = reslistCoreData p ++ X := by
    rw [dropWhile_ws_append w _ hw]
    unfold reslistCoreData
    exact dropWhile_cons_neg _ _ _ (by decide)
  have h2 : reslistCoreData p ++ X =
      '"' :: (p.data ++ ('"' :: ('\t' :: '"' :: 'f' :: 'i' :: 'l' :: 'e' :: '"' ::
        '\r' :: '\n' :: X))) := by
    unfold reslistCoreData
    simp
  unfold reslistEntryAt
  rw [h1, h2, matchValue_quoted p.data _ hp]
  rfl

/-- The music scan finds no entry inside the fixed 10-character document header,
whatever follows it. -/
theorem musicGo_header (k : Nat) (zs : List Char) :
    musicCapturesGo (k + 10)
      ('"' :: 'm' :: 'u' :: 's' :: 'i' :: 'c' :: '"' :: '\r' :: '\n' :: '\x7b' :: zs)
      = musicCapturesGo k zs :=
  calc musicCapturesGo (k + 10) ('"' :: 'm' :: 'u' :: 's' :: 'i' :: 'c' :: '"' :: '\r' :: '\n' :: '\x7b' :: zs)
    _ = musicCapturesGo (k + 9) ('m' :: 'u' :: 's' :: 'i' :: 'c' :: '"' :: '\r' :: '\n' :: '\x7b' :: zs) := musicCapturesGo_none (k + 9) _ _ rfl
    _ = musicCapturesGo (k + 8) ('u' :: 's' :: 'i' :: 'c' :: '"' :: '\r' :: '\n' :: '\x7b' :: zs) := musicCapturesGo_none (k + 8) _ _ rfl
    _ = musicCapturesGo (k + 7) ('s' :: 'i' :: 'c' :: '"' :: '\r' :: '\n' :: '\x7b' :: zs) := musicCapturesGo_none (k + 7) _ _ rfl
    _ = musicCapturesGo (k + 6) ('i' :: 'c' :: '"' :: '\r' :: '\n' :: '\x7b' :: zs) := musicCapturesGo_none (k + 6) _ _ rfl
    _ = musicCapturesGo (k + 5) ('c' :: '"' :: '\r' :: '\n' :: '\x7b' :: zs) := musicCapturesGo_none (k + 5) _ _ rfl
    _ = musicCapturesGo (k + 4) ('"' :: '\r' :: '\n' :: '\x7b' :: zs) := musicCapturesGo_none (k + 4) _ _ rfl
    _ = musicCapturesGo (k + 3) ('\r' :: '\n' :: '\x7b' :: zs) := musicCapturesGo_none (k + 3) _ _ rfl
    _ = musicCapturesGo (k + 2) ('\n' :: '\x7b' :: zs) := musicCapturesGo_none (k + 2) _ _ rfl
    _ = musicCapturesGo (k + 1) ('\x7b' :: zs) := musicCapturesGo_none (k + 1) _ _ rfl
    _ = musicCapturesGo k zs := musicCapturesGo_none k _ _ rfl

/-- The reslist scan finds no entry inside the fixed 14-character document header,
whatever follows it. -/
theorem reslistGo_header (k : Nat) (zs : List Char) :
    reslistCapturesGo (k + 14)
      ('"' :: 'r' :: 'e' :: 's' :: 'o' :: 'u' :: 'r' :: 'c' :: 'e' :: 's' :: '"' ::
        '\r' :: '\n' :: '\x7b' :: zs)
      = reslistCapturesGo k zs :=
  calc reslistCapturesGo (k + 14) ('"' :: 'r' :: 'e' :: 's' :: 'o' :: 'u' :: 'r' :: 'c' :: 'e' :: 's' :: '"' :: '\r' :: '\n' :: '\x7b' :: zs)
    _ = reslistCapturesGo (k + 13) ('r' :: 'e' :: 's' :: 'o' :: 'u' :: 'r' :: 'c' :: 'e' :: 's' :: '"' :: '\r' :: '\n' :: '\x7b' :: zs) := reslistCapturesGo_none (k + 13) _ _ rfl
    _ = reslistCapturesGo (k + 12) ('e' :: 's' :: 'o' :: 'u' :: 'r' :: 'c' :: 'e' :: 's' :: '"' :: '\r' :: '\n' :: '\x7b' :: zs) := reslistCapturesGo_none (k + 12) _ _ rfl
    _ = reslistCapturesGo (k + 11) ('s' :: 'o' :: 'u' :: 'r' :: 'c' :: 'e' :: 's' :: '"' :: '\r' :: '\n' :: '\x7b' :: zs) := reslistCapturesGo_none (k + 11) _ _ rfl
    _ = reslistCapturesGo (k + 10) ('o' :: 'u' :: 'r' :: 'c' :: 'e' :: 's' :: '"' :: '\r' :: '\n' :: '\x7b' :: zs) := reslistCapturesGo_none (k + 10) _ _ rfl
    _ = reslistCapturesGo (k + 9) ('u' :: 'r' :: 'c' :: 'e' :: 's' :: '"' :: '\r' :: '\n' :: '\x7b' :: zs) := reslistCapturesGo_none (k + 9) _ _ rfl
    _ = reslistCapturesGo (k + 8) ('r' :: 'c' :: 'e' :: 's' :: '"' :: '\r' :: '\n' :: '\x7b' :: zs) := reslistCapturesGo_none (k + 8) _ _ rfl
    _ = reslistCapturesGo (k + 7) ('c' :: 'e' :: 's' :: '"' :: '\r' :: '\n' :: '\x7b' :: zs) := reslistCapturesGo_none (k + 7) _ _ rfl
    _ = reslistCapturesGo (k + 6) ('e' :: 's' :: '"' :: '\r' :: '\n' :: '\x7b' :: zs) := reslistCapturesGo_none (k + 6) _ _ rfl
    _ = reslistCapturesGo (k + 5) ('s' :: '"' :: '\r' :: '\n' :: '\x7b' :: zs) := reslistCapturesGo_none (k + 5) _ _ rfl
    _ = reslistCapturesGo (k + 4) ('"' :: '\r' :: '\n' :: '\x7b' :: zs) := reslistCapturesGo_none (k + 4) _ _ rfl
    _ = reslistCapturesGo (k + 3) ('\r' :: '\n' :: '\x7b' :: zs) := reslistCapturesGo_none (k + 3) _ _ rfl
    _ = reslistCapturesGo (k + 2) ('\n' :: '\x7b' :: zs) := reslistCapturesGo_none (k + 2) _ _ rfl
    _ = reslistCapturesGo (k + 1) ('\x7b' :: zs) := reslistCapturesGo_none (k + 1) _ _ rfl
    _ = reslistCapturesGo k zs := reslistCapturesGo_none k _ _ rfl

/-- After the last entry the music scan walks any trailing whitespace and the closing
brace line without finding further entries. -/
theorem musicGo_ws_tail : ∀ (w : List Char) (f : Nat),
    (∀ c ∈ w, rsIsWhitespace c = true) → w.length + 3 ≤ f →
    musicCapturesGo f (w ++ ['\x7d', '\r', '\n']) = [] := by
  intro w
  induction w with
  | nil =>
    intro f _ hf
    obtain ⟨k, rfl⟩ : ∃ k, f = k + 3 := ⟨f - 3, by omega⟩
    calc musicCapturesGo (k + 3) ('\x7d' :: '\r' :: '\n' :: ([] : List Char))
      _ = musicCapturesGo (k + 2) ('\r' :: '\n' :: ([] : List Char)) := musicCapturesGo_none (k + 2) _ _ rfl
      _ = musicCapturesGo (k + 1) ('\n' :: ([] : List Char)) := musicCapturesGo_none (k + 1) _ _ rfl
      _ = musicCapturesGo k [] := musicCapturesGo_none k _ _ rfl
      _ = [] := musicCapturesGo_nil k
  | cons c w' ih =>
    intro f hw hf
    obtain ⟨f', rfl⟩ : ∃ f', f = f' + 1 := ⟨f - 1, by omega⟩
    have hnone : musicEntryAt (c :: (w' ++ ['\x7d', '\r', '\n'])) = none := by
      show musicEntryAt ((c :: w') ++ ['\x7d', '\r', '\n']) = none
      unfold musicEntryAt
      rw [dropWhile_ws_append _ _ hw]
      rfl
    refine (musicCapturesGo_none f' c (w' ++ ['\x7d', '\r', '\n']) hnone).trans ?_
    refine ih f' (fun x hx => hw x (List.mem_cons_of_mem c hx)) ?_
    simp only [List.length_cons] at hf
    omega

/-- After the last entry the reslist scan walks any trailing whitespace and the
closing brace line without finding further entries. -/
theorem reslistGo_ws_tail : ∀ (w : List Char) (f : Nat),
    (∀ c ∈ w, rsIsWhitespace c = true) → w.length + 3 ≤ f →
    reslistCapturesGo f (w ++ ['\x7d', '\r', '\n']) = [] := by
  intro w
  induction w with
  | nil =>
    intro f _ hf
    obtain ⟨k, rfl⟩ : ∃ k, f = k + 3 := ⟨f - 3, by omega⟩
    calc reslistCapturesGo (k + 3) ('\x7d' :: '\r' :: '\n' :: ([] : List Char))
      _ = reslistCapturesGo (k + 2) ('\r' :: '\n' :: ([] : List Char)) := reslistCapturesGo_none (k + 2) _ _ rfl
      _ = reslistCapturesGo (k + 1) ('\n' :: ([] : List Char)) := reslistCapturesGo_none (k + 1) _ _ rfl
      _ = reslistCapturesGo k [] := reslistCapturesGo_none k _ _ rfl
      _ = [] := reslistCapturesGo_nil k
  | cons c w' ih =>
    intro f hw hf
    obtain ⟨f', rfl⟩ : ∃ f', f = f' + 1 := ⟨f - 1, by omega⟩
    have hnone : reslistEntryAt (c :: (w' ++ ['\x7d', '\r', '\n'])) = none := by
      show reslistEntryAt ((c :: w') ++ ['\x7d', '\r', '\n']) = none
      unfold reslistEntryAt
      rw [dropWhile_ws_append _ _ hw]
      rfl
    refine (reslistCapturesGo_none f' c (w' ++ ['\x7d', '\r', '\n']) hnone).trans ?_
    refine ih f' (fun x hx => hw x (List.mem_cons_of_mem c hx)) ?_
    simp only [List.length_cons] at hf
    omega

/-- Dropping whitespace never lengthens a list. -/
theorem length_dropWhile_ws_le (l : List Char) :
    (l.dropWhile rsIsWhitespace).length ≤ l.length := by
  induction l with
  | nil => exact Nat.le_refl _
  | cons c l' ih =>
    rw [List.dropWhile_cons]
    split
    · simp only [List.length_cons]
      omega
    · exact Nat.le_refl _

/-- The list form of a quoted capture as a string. -/
theorem asString_quote (q : String) :
    ('"' :: q.data ++ ['"']).asString = "\x22" ++ q ++ "\x22" := by
  refine String.ext ?_
  show '"' :: q.data ++ ['"'] = ("\x22" ++ q ++ "\x22").data
  rw [String.data_append, String.data_append]
  simp

/-- Scanning the generated entry block (after an optional run of whitespace) yields
exactly the quoted path of each generated music entry, in order. -/
theorem musicGo_core (E : List String) : ∀ (w : List Char) (f : Nat),
    (∀ c ∈ w, rsIsWhitespace c = true) →
    (∀ p ∈ E, ∀ c ∈ p.data, quotedBodyChar c = true) →
    w.length + ((List.flatten (E.map musicEntryData) ++
      ['\x7d', '\r', '\n']).dropWhile rsIsWhitespace).length ≤ f →
    musicCapturesGo f (w ++ (List.flatten (E.map musicEntryData) ++
      ['\x7d', '\r', '\n']).dropWhile rsIsWhitespace) =
      E.map (fun p => "\x22" ++ p ++ "\x22") := by
  induction E with
  | nil =>
    intro w f hw _ hf
    simp only [List.map_nil, List.flatten_nil, List.nil_append] at hf ⊢
    rw [show List.dropWhile rsIsWhitespace ['\x7d', '\r', '\n'] = ['\x7d', '\r', '\n']
      from rfl] at hf ⊢
    refine musicGo_ws_tail w f hw ?_
    simp only [List.length_cons, List.length_nil] at hf
    omega
  | cons p us ih =>
    intro w f hw hsafe hf
    have hD : (List.flatten ((p :: us).map musicEntryData) ++
        ['\x7d', '\r', '\n']).dropWhile rsIsWhitespace =
        musicCoreData p ++ (List.flatten (us.map musicEntryData) ++
          ['\x7d', '\r', '\n']) := by
      rw [List.map_cons, List.flatten_cons]
      rw [show (musicEntryData p ++ List.flatten (List.map musicEntryData us)) ++
          ['\x7d', '\r', '\n'] = '\t' :: (musicCoreData p ++
            (List.flatten (List.map musicEntryData us) ++ ['\x7d', '\r', '\n'])) by
        unfold musicEntryData
        simp]
      rw [List.dropWhile_cons, show rsIsWhitespace '\t' = true from rfl, if_pos rfl]
      exact dropWhile_cons_neg _ _ _ (by decide)
    rw [hD] at hf ⊢
    have hcl : (musicCoreData p).length = p.data.length + 11 := by
      unfold musicCoreData
      simp
    obtain ⟨f', rfl⟩ : ∃ f', f = f' + 1 := by
      refine ⟨f - 1, ?_⟩
      simp only [List.length_append, hcl] at hf
      omega
    have hne : w ++ (musicCoreData p ++ (List.flatten (us.map musicEntryData) ++
        ['\x7d', '\r', '\n'])) ≠ [] := by
      intro hcon
      rcases List.append_eq_nil.mp hcon with ⟨h1, h2⟩
      rcases List.append_eq_nil.mp h2 with ⟨h3, h4⟩
      exact List.cons_ne_nil _ _ h3
    rw [musicCapturesGo_some f' _ _ _ hne (musicEntryAt_core w p _ hw
      (hsafe p (List.mem_cons_self p us)))]
    rw [List.map_cons]
    refine congrArg₂ List.cons (asString_quote p) ?_
    refine ih [] f' (fun c hc => absurd hc (List.not_mem_nil c))
      (fun q hq => hsafe q (List.mem_cons_of_mem p hq)) ?_
    have hdw := length_dropWhile_ws_le
      (List.flatten (us.map musicEntryData) ++ ['\x7d', '\r', '\n'])
    simp only [List.length_append, List.length_cons, List.length_nil, hcl] at hf hdw ⊢
    omega

/-- Scanning the generated entry block (after an optional run of whitespace) yields
exactly the quoted path of each generated reslist entry, in order. -/
theorem reslistGo_core (E : List String) : ∀ (w : List Char) (f : Nat),
    (∀ c ∈ w, rsIsWhitespace c = true) →
    (∀ p ∈ E, ∀ c ∈ p.data, quotedBodyChar c = true) →
    w.length + ((List.flatten (E.map reslistEntryData) ++
      ['\x7d', '\r', '\n']).dropWhile rsIsWhitespace).length ≤ f →
    reslistCapturesGo f (w ++ (List.flatten (E.map reslistEntryData) ++
      ['\x7d', '\r', '\n']).dropWhile rsIsWhitespace) =
      E.map (fun p => "\x22" ++ p ++ "\x22") := by
  induction E with
  | nil =>
    intro w f hw _ hf
    simp only [List.map_nil, List.flatten_nil, List.nil_append] at hf ⊢
    rw [show List.dropWhile rsIsWhitespace ['\x7d', '\r', '\n'] = ['\x7d', '\r', '\n']
      from rfl] at hf ⊢
    refine reslistGo_ws_tail w f hw ?_
    simp only [List.length_cons, List.length_nil] at hf
    omega
  | cons p us ih =>
    intro w f hw hsafe hf
    have hD : (List.flatten ((p :: us).map reslistEntryData) ++
        ['\x7d', '\r', '\n']).dropWhile rsIsWhitespace =
        reslistCoreData p ++ (List.flatten (us.map reslistEntryData) ++
          ['\x7d', '\r', '\n']) := by
      rw [List.map_cons, List.flatten_cons]
      rw [show (reslistEntryData p ++ List.flatten (List.map reslistEntryData us)) ++
          ['\x7d', '\r', '\n'] = '\t' :: (reslistCoreData p ++
            (List.flatten (List.map reslistEntryData us) ++ ['\x7d', '\r', '\n'])) by
        unfold reslistEntryData
        simp]
      rw [List.dropWhile_cons, show rsIsWhitespace '\t' = true from rfl, if_pos rfl]
      exact dropWhile_cons_neg _ _ _ (by decide)
    rw [hD] at hf ⊢
    have hcl : (reslistCoreData p).length = p.data.length + 11 := by
      unfold reslistCoreData
      simp
    obtain ⟨f', rfl⟩ : ∃ f', f = f' + 1 := by
      refine ⟨f - 1, ?_⟩
      simp only [List.length_append, hcl] at hf
      omega
    have hne : w ++ (reslistCoreData p ++ (List.flatten (us.map reslistEntryData) ++
        ['\x7d', '\r', '\n'])) ≠ [] := by
      intro hcon
      rcases List.append_eq_nil.mp hcon with ⟨h1, h2⟩
      rcases List.append_eq_nil.mp h2 with ⟨h3, h4⟩
      exact List.cons_ne_nil _ _ h3
    rw [reslistCapturesGo_some f' _ _ _ hne (reslistEntryAt_core w p _ hw
      (hsafe p (List.mem_cons_self p us)))]
    rw [List.map_cons]
    refine congrArg₂ List.cons (asString_quote p) ?_
    refine ih [] f' (fun c hc => absurd hc (List.not_mem_nil c))
      (fun q hq => hsafe q (List.mem_cons_of_mem p hq)) ?_
    have hdw := length_dropWhile_ws_le
      (List.flatten (us.map reslistEntryData) ++ ['\x7d', '\r', '\n'])
    simp only [List.length_append, List.length_cons, List.length_nil, hcl] at hf hdw ⊢
    omega

/-- The emitted playlist is never empty: an empty scan falls back to the example
list. -/
theorem musicEmitted_ne_nil (names : List String) :
    ∃ p us, musicEmitted names = p :: us := by
  cases names with
  | nil => exact ⟨"music/classy.mp3", _, rfl⟩
  | cons a l => exact ⟨a, l, rfl⟩

/-- The captures scan of a generated music script yields exactly the emitted paths,
each in its quotes, in order. -/
theorem musicFileCaptures_generated (names : List String)
    (h : ∀ p ∈ musicEmitted names, ∀ c ∈ p.data, quotedBodyChar c = true) :
    musicFileCaptures (create_music_script_contents names) =
      (musicEmitted names).map (fun p => "\x22" ++ p ++ "\x22") := by
  obtain ⟨p, us, hE⟩ := musicEmitted_ne_nil names
  unfold musicFileCaptures
  rw [create_music_data, hE]
  have hL : ('"' :: 'm' :: 'u' :: 's' :: 'i' :: 'c' :: '"' :: '\r' :: '\n' :: '\x7b' ::
      ('\r' :: '\n' :: (List.flatten ((p :: us).map musicEntryData) ++
        ['\x7d', '\r', '\n']))).length
      = ('\r' :: '\n' :: (List.flatten ((p :: us).map musicEntryData) ++
        ['\x7d', '\r', '\n'])).length + 10 := by
    simp only [List.length_cons]
  rw [hL, musicGo_header]
  rw [show List.flatten ((p :: us).map musicEntryData) ++ ['\x7d', '\r', '\n']
      = (List.flatten ((p :: us).map musicEntryData) ++
          ['\x7d', '\r', '\n']).takeWhile rsIsWhitespace ++
        (List.flatten ((p :: us).map musicEntryData) ++
          ['\x7d', '\r', '\n']).dropWhile rsIsWhitespace
    from (List.takeWhile_append_dropWhile _ _).symm]
  refine musicGo_core (p :: us) ('\r' :: '\n' ::
    ((List.flatten ((p :: us).map musicEntryData) ++
      ['\x7d', '\r', '\n']).takeWhile rsIsWhitespace)) _ ?_ ?_ ?_
  · intro c hc
    rcases List.mem_cons.mp hc with rfl | hc
    · rfl
    rcases List.mem_cons.mp hc with rfl | hc
    · rfl
    exact List.mem_takeWhile_imp hc
  · rw [← hE]
    exact h
  · simp only [List.length_cons, List.length_append]
    omega

/-- The captures scan of a generated reslist yields exactly the declared paths, each
in its quotes, in order. -/
theorem reslistFileCaptures_generated (fl : List String) (hne : fl ≠ [])
    (h : ∀ p ∈ fl, ∀ c ∈ p.data, quotedBodyChar c = true) :
    reslistFileCaptures (reslistContents fl) =
      fl.map (fun p => "\x22" ++ p ++ "\x22") := by
  obtain ⟨p, us, rfl⟩ : ∃ p us, fl = p :: us := by
    cases fl with
    | nil => exact absurd rfl hne
    | cons a l => exact ⟨a, l, rfl⟩
  unfold reslistFileCaptures
  rw [reslistContents_data]
  have hL : ('"' :: 'r' :: 'e' :: 's' :: 'o' :: 'u' :: 'r' :: 'c' :: 'e' :: 's' :: '"' ::
      '\r' :: '\n' :: '\x7b' ::
      ('\r' :: '\n' :: (List.flatten ((p :: us).map reslistEntryData) ++
        ['\x7d', '\r', '\n']))).length
      = ('\r' :: '\n' :: (List.flatten ((p :: us).map reslistEntryData) ++
        ['\x7d', '\r', '\n'])).length + 14 := by
    simp only [List.length_cons]
  rw [hL, reslistGo_header]
  rw [show List.flatten ((p :: us).map reslistEntryData) ++ ['\x7d', '\r', '\n']
      = (List.flatten ((p :: us).map reslistEntryData) ++
          ['\x7d', '\r', '\n']).takeWhile rsIsWhitespace ++
        (List.flatten ((p :: us).map reslistEntryData) ++
          ['\x7d', '\r', '\n']).dropWhile rsIsWhitespace
    from (List.takeWhile_append_dropWhile _ _).symm]
  refine reslistGo_core (p :: us) ('\r' :: '\n' ::
    ((List.flatten ((p :: us).map reslistEntryData) ++
      ['\x7d', '\r', '\n']).takeWhile rsIsWhitespace)) _ ?_ ?_ ?_
  · intro c hc
    rcases List.mem_cons.mp hc with rfl | hc
    · rfl
    rcases List.mem_cons.mp hc with rfl | hc
    · rfl
    exact List.mem_takeWhile_imp hc
  · exact h
  · simp only [List.length_cons, List.length_append]
    omega

/-- Normalization undoes the generator quoting: on a quote-free, backslash-free,
already-lowercase path, stripping quotes, slashing and lowercasing give the path
back. -/
theorem fixedPathOf_quote (p : String) (hp : emittedPathOk p) :
    fixedPathOf ("\x22" ++ p ++ "\x22") = p := by
  have hstrip : stripQuotes ("\x22" ++ p ++ "\x22") = p := by
    refine String.ext ?_
    show (("\x22" ++ p ++ "\x22").data).filter (fun c => c != '"') = p.data
    rw [String.data_append, String.data_append, List.filter_append, List.filter_append]
    have h2 : List.filter (fun c => c != '"') p.data = p.data := by
      refine List.filter_eq_self.mpr ?_
      intro c hc
      have hq := (hp.1 c hc).1
      simp only [quotedBodyChar, Bool.and_eq_true] at hq
      exact hq.1.1
    have h1 : List.filter (fun c => c != '"') ("\x22" : String).data = [] := by decide
    rw [h2, h1]
    simp
  have hslash : slashFwd p = p := by
    refine String.ext ?_
    show p.data.map (fun c => if c = '\\' then '/' else c) = p.data
    exact (List.map_congr_left fun c hc => if_neg (hp.1 c hc).2).trans (List.map_id _)
  unfold fixedPathOf
  rw [hstrip, hslash, hp.2]

/-- A path that ends in `.mp3` passes the music extension test. -/
theorem mp3ExtensionBadB_of_mp3 (p : String) (h : rsEndsWith p ".mp3" = true) :
    mp3ExtensionBadB p = false := by
  obtain ⟨hm, hlen4⟩ := endsWith_dotmp3_facts p h
  rw [rsEndsWith_iff] at hm
  obtain ⟨t, ht⟩ := hm
  have hlast : lastN p 3 = "mp3" := by
    refine String.ext ?_
    rw [lastN_data]
    have hlen2 : p.data.length = t.length + 3 := by
      rw [← ht]
      simp
    rw [hlen2, Nat.add_sub_cancel, ← ht, List.drop_left]
  unfold mp3ExtensionBadB
  rw [hlast, show rsToLower "mp3" = "mp3" from rfl]
  simp

/-- The music entry loop accepts a list of entries that all satisfy both per-entry
checks. -/
theorem musicEntriesLoop_all_pass (mp3Files : List String) (caps : List String)
    (h : ∀ u ∈ caps, mp3ExtensionBadB (fixedPathOf u) = false ∧
      mp3Files.contains (fixedPathOf u) = true) :
    musicEntriesLoop mp3Files caps = .ok () := by
  have := musicEntriesLoop_skip mp3Files caps [] h
  simpa using this

/-- Music round trip: a generated music script validates fully (no warning) whenever
the emitted playlist is grammar-safe and every emitted path ends in `.mp3` and is in
the validator's mp3 snapshot. -/
theorem music_round_trip (env : MusicEnv) (names : List String)
    (hdir : env.gesSoundDirExists = true)
    (hsafe : ∀ p ∈ musicEmitted names, emittedPathOk p)
    (hmp3 : ∀ p ∈ musicEmitted names, rsEndsWith p ".mp3" = true)
    (hmem : ∀ p ∈ musicEmitted names, env.mp3Files.contains p = true) :
    check_music_script_file env (create_music_script_contents names) = .ok false := by
  have hstruct : musicStructMatch (create_music_script_contents names) = true :=
    musicStructMatch_generated names (fun p hp c hc => ((hsafe p hp).1 c hc).1)
  have hcaps := musicFileCaptures_generated names
    (fun p hp c hc => ((hsafe p hp).1 c hc).1)
  have hloop : musicEntriesLoop env.mp3Files
      (musicFileCaptures (create_music_script_contents names)) = .ok () := by
    rw [hcaps]
    refine musicEntriesLoop_all_pass env.mp3Files _ ?_
    intro u hu
    rcases List.mem_map.mp hu with ⟨p, hp, rfl⟩
    rw [fixedPathOf_quote p (hsafe p hp)]
    exact ⟨mp3ExtensionBadB_of_mp3 p (hmp3 p hp), hmem p hp⟩
  unfold check_music_script_file
  rw [hstruct, hdir, hloop]
  rfl

/-- The reslist entry loop steps over one entry that passes all three per-entry
checks, recording its normalized path. -/
theorem reslistEntriesLoop_cons_pass (fileList : List String) (u : String)
    (caps checked : List String)
    (h1 : DISALLOWED_FILETYPES.contains
      (rsToLower (get_string_file_extension (fixedPathOf u))) = false)
    (h2 : fileList.contains (fixedPathOf u) = true)
    (h3 : checked.contains (fixedPathOf u) = false) :
    reslistEntriesLoop fileList (u :: caps) checked =
      reslistEntriesLoop fileList caps (checked ++ [fixedPathOf u]) := by
  conv_lhs => unfold reslistEntriesLoop
  simp only [h1, Bool.false_eq_true, if_false, h2, Bool.not_true, h3, Bool.not_false,
    if_true]

/-- The reslist entry loop accepts quoted forms of distinct declared paths that all
pass the extension check, accumulating them onto the already-checked list. -/
theorem reslistEntriesLoop_ok (fileList : List String) :
    ∀ (rest done : List String),
    (∀ p ∈ rest, emittedPathOk p ∧
      DISALLOWED_FILETYPES.contains (rsToLower (get_string_file_extension p)) = false ∧
      fileList.contains p = true) →
    (done ++ rest).Nodup →
    reslistEntriesLoop fileList (rest.map (fun p => "\x22" ++ p ++ "\x22")) done =
      .ok (done ++ rest) := by
  intro rest
  induction rest with
  | nil =>
    intro done _ _
    simp [reslistEntriesLoop]
  | cons p rest' ih =>
    intro done hcond hnodup
    obtain ⟨hok, hdis, hcontains⟩ := hcond p (List.mem_cons_self p rest')
    have hfix := fixedPathOf_quote p hok
    have hpd : p ∉ done := by
      rcases List.nodup_append.mp hnodup with ⟨hd1, hd2, hdisj⟩
      exact fun hmem => hdisj hmem (List.mem_cons_self p rest')
    have h3 : done.contains p = false := by
      cases hc : done.contains p
      · rfl
      · exact absurd (List.mem_of_elem_eq_true hc) hpd
    rw [List.map_cons, reslistEntriesLoop_cons_pass fileList _ _ done
      (by rw [hfix]; exact hdis) (by rw [hfix]; exact hcontains) (by rw [hfix]; exact h3)]
    rw [hfix]
    have hres := ih (done ++ [p])
      (fun q hq => hcond q (List.mem_cons_of_mem p hq))
      (by rw [List.append_assoc]; simpa using hnodup)
    rw [hres]
    rw [List.append_assoc]
    rfl

/-- No declared file is missing from its own manifest. -/
theorem filter_not_self_contains (fl : List String) :
    fl.filter (fun file => !(fl.contains file)) = [] := by
  refine List.filter_eq_nil.mpr ?_
  intro a ha
  have hc : fl.contains a = true := List.elem_eq_true_of_mem ha
  simp [hc]
  exact ha

/-- Reslist round trip: a generated manifest validates whenever the declared list is
non-empty, duplicate-free, grammar-safe, and free of disallowed extensions — in
either reconciliation mode. -/
theorem reslist_round_trip (env : ReslistEnv)
    (hfl : env.fileList ≠ [])
    (hnd : env.fileList.Nodup)
    (hsafe : ∀ p ∈ env.fileList, emittedPathOk p)
    (hext : ∀ p ∈ env.fileList,
      DISALLOWED_FILETYPES.contains (rsToLower (get_string_file_extension p)) = false) :
    check_reslist env (reslistContents env.fileList) = .ok () := by
  have hstruct : reslistStructMatch (reslistContents env.fileList) = true :=
    reslistStructMatch_generated env.fileList hfl
      (fun p hp c hc => ((hsafe p hp).1 c hc).1)
  have hcaps := reslistFileCaptures_generated env.fileList hfl
    (fun p hp c hc => ((hsafe p hp).1 c hc).1)
  have hloop : reslistEntriesLoop env.fileList
      (reslistFileCaptures (reslistContents env.fileList)) [] = .ok env.fileList := by
    rw [hcaps]
    have := reslistEntriesLoop_ok env.fileList env.fileList []
      (fun p hp => ⟨hsafe p hp, hext p hp, List.elem_eq_true_of_mem hp⟩)
      (by simpa using hnd)
    simpa using this
  unfold check_reslist
  rw [hstruct, hloop]
  cases hfc : env.fullcheck
  · simp [hfc, filter_not_self_contains]
  · simp [hfc]

/-- C5.  Round trip, amended: the map-script round trip holds unconditionally for
every `i32` parameter set; the music and reslist round trips hold only when the
generator inputs agree with the validator snapshots — for music, when the emitted
playlist (the scan result, or the fixed example list for an empty scan) is
grammar-safe, `.mp3`-suffixed and contained in the validator's mp3 snapshot; for the
reslist, when the declared list is non-empty, duplicate-free, grammar-safe and free
of disallowed extensions.  The unconditional claim is false: see the
counterexample. -/
theorem round_trip_validates_generated
    (args : Arguments) (menv : MusicEnv) (names : List String) (renv : ReslistEnv)
    (h1 : isI32 args.baseweight) (h2 : isI32 args.maxplayers)
    (h3 : isI32 args.minplayers) (h4 : isI32 args.resintensity)
    (h5 : isI32 args.teamthresh)
    (hdir : menv.gesSoundDirExists = true)
    (hsafe : ∀ p ∈ musicEmitted names, emittedPathOk p)
    (hmp3 : ∀ p ∈ musicEmitted names, rsEndsWith p ".mp3" = true)
    (hmem : ∀ p ∈ musicEmitted names, menv.mp3Files.contains p = true)
    (hfl : renv.fileList ≠ []) (hnd : renv.fileList.Nodup)
    (hrsafe : ∀ p ∈ renv.fileList, emittedPathOk p)
    (hext : ∀ p ∈ renv.fileList,
      DISALLOWED_FILETYPES.contains (rsToLower (get_string_file_extension p)) = false) :
    check_map_script_file (rsLines (create_map_script_contents args)) = .ok () ∧
    check_music_script_file menv (create_music_script_contents names) = .ok false ∧
    check_reslist renv (reslistContents renv.fileList) = .ok () :=
  ⟨map_script_round_trip args h1 h2 h3 h4 h5,
   music_round_trip menv names hdir hsafe hmp3 hmem,
   reslist_round_trip renv hfl hnd hrsafe hext⟩

/-- Witness for the round-trip theorem at a concrete parameter set. -/
theorem round_trip_validates_generated_witness :
    check_map_script_file
      (rsLines (create_map_script_contents ⟨500, 0, 16, 5, 20⟩)) = .ok () ∧
    check_music_script_file ⟨true, ["music/a.mp3"]⟩
      (create_music_script_contents ["music/a.mp3"]) = .ok false ∧
    check_reslist ⟨["materials/a.vmt"], false⟩
      (reslistContents (ReslistEnv.fileList ⟨["materials/a.vmt"], false⟩)) = .ok () :=
  round_trip_validates_generated ⟨500, 0, 16, 5, 20⟩ ⟨true, ["music/a.mp3"]⟩
    ["music/a.mp3"] ⟨["materials/a.vmt"], false⟩
    ⟨by decide, by decide⟩ ⟨by decide, by decide⟩ ⟨by decide, by decide⟩
    ⟨by decide, by decide⟩ ⟨by decide, by decide⟩
    rfl
    (by
      intro p hp
      rcases List.mem_singleton.mp hp with rfl
      exact ⟨by decide, by decide⟩)
    (by decide) (by decide)
    (by decide) (by decide)
    (by
      intro p hp
      rcases List.mem_singleton.mp hp with rfl
      exact ⟨by decide, by decide⟩)
    (by decide)

/-- Counterexample to the unconditional round trip: with the install sound directory
present but no mp3 anywhere in the snapshot, the music script generated from an
empty local scan (the fixed example playlist) is rejected by its own validator. -/
theorem round_trip_music_counterexample :
    check_music_script_file ⟨true, []⟩ (create_music_script_contents []) =
      .error ("Failed to locate music file music/classy.mp3 in either the GE:S or local directory tree\nEnsure that the file path is valid and that the file exists.") := by
  rfl

end GesMSU
